import Mathlib

/-!
Verification development for the mscz-concatenator repository
(`mscore/__init__.py`, `ms_concatenate.py`).

The Python code is shallowly embedded: XML trees are modelled by the data the
claims depend on (staff elements with their tag, text styles, `eid` element
texts, repeat flags and layout-break markers; system locks as pairs of optional
measure references; zip containers as lists of named byte entries), the mutable
algorithms become pure state-passing functions, and `os.urandom`-driven
identifier generation becomes an explicit oracle argument `gen`.
-/

namespace Mscz

/-! ## Python string helpers

`str.lower` / `str.strip` are modelled on the character lists of Lean strings
(ASCII-faithful; the repository only compares ASCII names and styles). -/

def pyLower (s : String) : String :=
  String.mk (s.data.map Char.toLower)

def stripChars (cs : List Char) : List Char :=
  ((cs.dropWhile Char.isWhitespace).reverse.dropWhile Char.isWhitespace).reverse

/-- `s.strip().lower()` as used on frame text styles. -/
def pyStripLower (s : String) : String :=
  String.mk ((stripChars s.data).map Char.toLower)

/-- Splitting at every occurrence of a separator character, as Python
`str.split(sep)` does for the one-character separators the code uses. -/
def splitOnChar (sep : Char) : List Char → List (List Char)
  | [] => [[]]
  | c :: rest =>
    match splitOnChar sep rest with
    | [] => if c = sep then [[], [c]] else [[c]]
    | h :: t => if c = sep then [] :: h :: t else (c :: h) :: t

/-- `os.path.basename` restricted to `/`-separated paths. -/
def pyBasename (p : String) : String :=
  ((splitOnChar '/' p.data).map String.mk).getLastD p

/-- `src.lower().endswith(".mscz")` from `ms_concatenate.concatenate`. -/
def endsWithMscz (s : String) : Bool :=
  List.isSuffixOf ".mscz".data (pyLower s).data

/-! ## The identifier generator (`generate_new_eid` in `rename_duplicate_eids`) -/

/-- The fixed 64-character alphabet `chars` of `generate_new_eid`. -/
def base64Chars : List Char :=
  "ABCDEFGHIJKLMNOPQRSTUVWXYZabcdefghijklmnopqrstuvwxyz0123456789+/".data

/-- `chars[n % 64]` as a function of the digit. -/
def base64Digit (d : Nat) : Char := base64Chars.getD d 'A'

/-- The `while n > 0` loop of `to_base64`: prepend `chars[n % 64]`, divide by 64. -/
def toBase64Go (n : Nat) (acc : List Char) : List Char :=
  if h : n = 0 then acc
  else toBase64Go (n / 64) (base64Chars.getD (n % 64) 'A' :: acc)
termination_by n
decreasing_by exact Nat.div_lt_self (Nat.pos_of_ne_zero h) (by decide)

/-- `to_base64` from the source: zero yields `chars[0]`, otherwise the loop. -/
def to_base64 (n : Nat) : String :=
  if n = 0 then String.mk [base64Chars.getD 0 'A']
  else String.mk (toBase64Go n [])

/-- `generate_new_eid`, with the two `os.urandom`-derived unsigned 64-bit
values made explicit arguments: `f"(part1)_(part2)"`. -/
def generate_new_eid (int1 int2 : Nat) : String :=
  to_base64 int1 ++ "_" ++ to_base64 int2

/-- The spec's own description of one rendering: the value's base-64 digits,
most significant digit first, mapped through the fixed alphabet; zero renders
as the single first alphabet character. Stated independently of `to_base64`,
for comparison with it. -/
def specBase64Render (n : Nat) : String :=
  if n = 0 then "A"
  else String.mk ((Nat.digits 64 n).reverse.map (fun d => base64Chars.getD d 'A'))

/-! ## The score data model

A `Score` keeps exactly the parts of the parsed XML tree the merge engine
touches: the cleaned-up `Part` track names (`Score.part_names`), every `Staff`
element with its `id` attribute and child elements, and the optional
`SystemLocks` region.  A staff child `Elem` records its tag, the texts of its
`.//Text/style` descendants (absent styles read as `""`, as
`findtext("style") or ""` does), the texts of its `.//eid` descendants, a
repeat flag, and the layout-break markers attached to it. -/

structure BreakOpts where
  pause : Rat
  start_with_long_names : Bool
  start_with_measure_one : Bool
  first_system_indentation : Bool
  show_courtesy_sig : Bool
  auto_detect_repeats : Bool
deriving DecidableEq

structure Elem where
  tag : String
  textStyles : List String
  eidTexts : List String
  hasRepeat : Bool
  breaks : List (String × Option BreakOpts)
deriving DecidableEq

structure Staff where
  id : Option String
  elems : List Elem
deriving DecidableEq

structure SysLock where
  startMeasure : Option String
  endMeasure : Option String
deriving DecidableEq

structure Score where
  basename : String
  partNames : List (Option String)
  staffs : List Staff
  systemLocks : Option (List SysLock)
deriving DecidableEq

def Staff.rawEids (st : Staff) : List String :=
  (st.elems.map Elem.eidTexts).flatten

def Score.rawEids (s : Score) : List String :=
  (s.staffs.map Staff.rawEids).flatten

/-- All identifiers of the document: the texts of every `eid` element, with
falsy (empty) texts skipped as `find_duplicate_eids` skips them. -/
def Score.allEids (s : Score) : List String :=
  s.rawEids.filter (fun e => e != "")

def Staff.measureRawEids (st : Staff) : List String :=
  ((st.elems.filter (fun e => e.tag == "Measure")).map Elem.eidTexts).flatten

/-- The identifiers carried by `Measure` elements. -/
def Score.measureEids (s : Score) : List String :=
  ((s.staffs.map Staff.measureRawEids).flatten).filter (fun e => e != "")

/-! ## The identity deduplicator -/

/-- `Score.find_duplicate_eids`: collect the non-falsy `.//eid` texts of both
documents and intersect the two sets. -/
def find_duplicate_eids (target source : Score) : List String :=
  (target.allEids.filter (fun e => decide (e ∈ source.allEids))).dedup

/-- One application of the `eid_mapping` dict: colliding identifiers are
replaced with their generated substitute, everything else kept. -/
def renameEid (dups : List String) (gen : String → String) (e : String) : String :=
  if e ∈ dups then gen e else e

def Elem.renameEids (dups : List String) (gen : String → String) (e : Elem) : Elem :=
  { e with eidTexts := e.eidTexts.map (renameEid dups gen) }

def Staff.renameEids (dups : List String) (gen : String → String) (st : Staff) : Staff :=
  { st with elems := st.elems.map (Elem.renameEids dups gen) }

/-- System-lock `startMeasure` / `endMeasure` references are rewritten when
their text is a key of the mapping. -/
def SysLock.renameRefs (dups : List String) (gen : String → String) (l : SysLock) : SysLock :=
  { startMeasure := l.startMeasure.map (renameEid dups gen),
    endMeasure := l.endMeasure.map (renameEid dups gen) }

/-- `Score.rename_duplicate_eids`: rewrite every `eid` element text of the
source whose text is in the mapping, then rewrite the source's system-lock
references through the same mapping. -/
def rename_duplicate_eids (dups : List String) (gen : String → String) (src : Score) : Score :=
  { src with
    staffs := src.staffs.map (Staff.renameEids dups gen),
    systemLocks := src.systemLocks.map (fun ls => ls.map (SysLock.renameRefs dups gen)) }

/-! ## The structural merge (`Score.concatenate_score`) -/

def FRAME_TAGS : List String := ["VBox", "HBox", "TBox", "FBox"]

/-- `looks_like_title`: some `.//Text` descendant whose style text, stripped
and lowercased, equals `"title"`. -/
def looksLikeTitle (e : Elem) : Bool :=
  e.textStyles.any (fun s => pyStripLower s == "title")

/-- The per-staff copying loop of `concatenate_score`, carrying the
`first_frame` flag: measures are always copied; a frame is copied only when
frame copying is on, and the first frame is dropped when it is a `VBox`/`TBox`
classified as a title frame while title-frame copying is off. -/
def copyStaffElems (cf ctf : Bool) : Bool → List Elem → List Elem
  | _, [] => []
  | ff, e :: rest =>
    if e.tag == "Measure" then
      e :: copyStaffElems cf ctf ff rest
    else if cf && FRAME_TAGS.contains e.tag then
      if ff && !ctf && (e.tag == "VBox" || e.tag == "TBox") && looksLikeTitle e then
        copyStaffElems cf ctf false rest
      else
        e :: copyStaffElems cf ctf false rest
    else
      copyStaffElems cf ctf ff rest

/-- One `zip` iteration of the staff loop: positions whose `id` attributes
differ are skipped (`continue`), otherwise the copied source elements are
appended to the target staff. -/
def mergeStaffPair (cf ctf : Bool) (tgt src : Staff) : Staff :=
  if tgt.id = src.id then
    { tgt with elems := tgt.elems ++ copyStaffElems cf ctf true src.elems }
  else tgt

structure ConcatResult where
  target : Score
  source : Score
  hadDuplicates : Bool
deriving DecidableEq

/-- The deduplication prelude of `concatenate_score`: the source is renamed
only when the collision set is non-empty. -/
def dedupSource (target source : Score) (gen : String → String) : Score :=
  let dups := find_duplicate_eids target source
  if dups.isEmpty then source else rename_duplicate_eids dups gen source

/-- The `SystemLocks` block at the end of `concatenate_score`: wholesale
deep-copy when the target has no region, individual appends otherwise. -/
def mergeLocks (csl : Bool) (t1 src2 : Score) : Score :=
  if csl then
    match src2.systemLocks with
    | none => t1
    | some srcLocks =>
      match t1.systemLocks with
      | none => { t1 with systemLocks := some srcLocks }
      | some tgtLocks => { t1 with systemLocks := some (tgtLocks ++ srcLocks) }
  else t1

/-- `Score.concatenate_score`: detect colliding eids, rename them in the
source when any exist, abort (after the renaming) when the staff counts
differ, otherwise merge staff-by-staff positionally and append the source's
system locks when enabled. -/
def Score.concatenate_score (target source : Score) (gen : String → String)
    (cf ctf csl : Bool) : ConcatResult :=
  let had := !(find_duplicate_eids target source).isEmpty
  let src2 := dedupSource target source gen
  if target.staffs.length ≠ src2.staffs.length then
    ⟨target, src2, had⟩
  else
    let t1 : Score := { target with
      staffs := (target.staffs.zip src2.staffs).map (fun p => mergeStaffPair cf ctf p.1 p.2) }
    ⟨mergeLocks csl t1 src2, src2, had⟩

/-! ## System-lock reference resolution -/

def refResolvedB (eids : List String) : Option String → Bool
  | none => true
  | some t => eids.contains t

/-- Every system-lock range reference of the document resolves to an existing
`Measure` identifier. -/
def Score.locksResolvedB (s : Score) : Bool :=
  (s.systemLocks.getD []).all
    (fun l => refResolvedB s.measureEids l.startMeasure &&
              refResolvedB s.measureEids l.endMeasure)

/-! ## The compatibility validator (`validate_and_skip_files`) -/

/-- `[part for part in parts if part is not None and part != ""]`. -/
def cleanParts (parts : List (Option String)) : List String :=
  (parts.filterMap id).filter (fun p => p != "")

inductive ValidationResult where
  | valid
  | noMusicalParts
  | differentPartCount
  | instrumentationMismatch
deriving DecidableEq

/-- The per-source classification of `validate_and_skip_files`.  The fuzzy
matcher (`mscore.fuzzy`, exercised only when `fuzzy_matching` is on) is an
oracle argument `fuzzyOk` standing for `_fuzzy_instrument_match` with its
threshold and number strategy applied. -/
def validateSource (targetClean : List String) (srcParts : List (Option String))
    (fuzzy_matching : Bool) (fuzzyOk : List String → List String → Bool) :
    ValidationResult :=
  let srcClean := cleanParts srcParts
  if srcClean.isEmpty then .noMusicalParts
  else if srcClean.length ≠ targetClean.length then .differentPartCount
  else if fuzzy_matching then
    if fuzzyOk targetClean srcClean then .valid else .instrumentationMismatch
  else
    if srcClean == targetClean then .valid else .instrumentationMismatch

structure Skipped where
  file : String
  reason : ValidationResult
deriving DecidableEq

/-- `validate_and_skip_files`: split the sources, in order, into accepted ones
and skipped ones with their reasons. -/
def validate_and_skip_files (target : Score) (fuzzy_matching : Bool)
    (fuzzyOk : List String → List String → Bool) :
    List Score → List Score × List Skipped
  | [] => ([], [])
  | src :: rest =>
    let res := validate_and_skip_files target fuzzy_matching fuzzyOk rest
    match validateSource (cleanParts target.partNames) src.partNames fuzzy_matching fuzzyOk with
    | .valid => (src :: res.1, res.2)
    | r => (res.1, ⟨src.basename, r⟩ :: res.2)

/-! ## The compound container (`Score.__init__` / `Score.save` for `.mscz`) -/

structure ZipEntry where
  name : String
  data : List Nat
deriving DecidableEq

/-- `os.path.splitext(...)[-1]`: split the basename at its last dot, with no
extension when every character before that dot is itself a dot. -/
def splitAtLastDot : List Char → Option (List Char × List Char)
  | [] => none
  | c :: rest =>
    match splitAtLastDot rest with
    | some p => some (c :: p.1, p.2)
    | none => if c = '.' then some ([], rest) else none

def splitextExt (name : String) : String :=
  let base := ((splitOnChar '/' name.data).map String.mk).getLastD ""
  match splitAtLastDot base.data with
  | none => ""
  | some p => if p.1.any (fun c => c ≠ '.') then String.mk ('.' :: p.2) else ""

/-- The scan of `Score.__init__` for the first zip entry with the `.mscx`
extension. -/
def findMscxIndex (entries : List ZipEntry) : Option Nat :=
  entries.findIdx? (fun e => splitextExt e.name == ".mscx")

structure MsczDoc where
  entries : List ZipEntry
  mscxIdx : Nat
deriving DecidableEq

/-- Opening a `.mscz` container: buffer every entry, locate the first `.mscx`
entry (parsed as the tree), fail when there is none. -/
def openMscz (entries : List ZipEntry) : Except String MsczDoc :=
  match findMscxIndex entries with
  | none => .error "No mscx entries found in zip file"
  | some i => .ok ⟨entries, i⟩

/-- The write-back loop of `Score.save`: every buffered entry is written in
order, with the tree entry's data replaced by the re-serialized tree bytes. -/
def writeEntries (i : Nat) (bytes : List Nat) : Nat → List ZipEntry → List ZipEntry
  | _, [] => []
  | k, e :: rest =>
    (if k = i then { e with data := bytes } else e) :: writeEntries i bytes (k + 1) rest

def saveMscz (doc : MsczDoc) (bytes : List Nat) : List ZipEntry :=
  writeEntries doc.mscxIdx bytes 0 doc.entries

/-! ## The concatenation run (`ms_concatenate.concatenate`)

File-system effects and in-memory mutations are recorded as an event trace;
the target accumulator is threaded explicitly. -/

inductive Event where
  | copyFile (src dst : String)
  | addBreak (who : String) (btype : String) (opts : Option BreakOpts)
  | mergeSource (srcName : String)
  | saveTarget (dst : String)
  | appendPictures (dst : String)
deriving DecidableEq

structure ConcatOptions where
  copy_frames : Bool := true
  copy_title_frames : Bool := true
  copy_system_locks : Bool := true
  copy_pictures : Bool := false
  break_type : String := "none"
  break_options : Option BreakOpts := none
  skip_incompatible : Bool := true
  fuzzy_matching : Bool := false
deriving DecidableEq

/-- Modelled from the spec: `Score.has_repeats_in_last_measure` is called from
`ms_concatenate.concatenate` but its definition is not among the provided
sources.  Per spec section 4.6 it reports whether "the target's last measure is
flagged as containing a repeat construct"; here, whether the last `Measure`
element of the document carries the repeat flag. -/
def Score.has_repeats_in_last_measure (s : Score) : Bool :=
  match ((s.staffs.map Staff.elems).flatten.filter
      (fun e => e.tag == "Measure")).getLast? with
  | some m => m.hasRepeat
  | none => false

/-- Helper for the spec-modelled `Score.add_layout_break`: attach the marker to
the last `Measure` element of a child list. -/
def addBreakToElems (btype : String) (opts : Option BreakOpts) : List Elem → List Elem
  | [] => []
  | e :: rest =>
    if rest.any (fun x => x.tag == "Measure") then
      e :: addBreakToElems btype opts rest
    else if e.tag == "Measure" then
      { e with breaks := e.breaks ++ [(btype, opts)] } :: rest
    else
      e :: rest

/-- Modelled from the spec: `Score.add_layout_break` is called from
`ms_concatenate._add_layout_break` but its definition is not among the
provided sources.  Per spec section 4.6 it "appends a break marker to the last
existing measure of the target"; here the (type, options) marker is appended
to the last `Measure` element of each staff. -/
def Score.add_layout_break (s : Score) (btype : String) (opts : Option BreakOpts) : Score :=
  { s with staffs := s.staffs.map (fun st => { st with elems := addBreakToElems btype opts st.elems }) }

/-- `break_type.split(',') if ',' in break_type else [break_type]`. -/
def breakTypesOf (break_type : String) : List String :=
  (splitOnChar ',' break_type.data).map String.mk

structure RunState where
  target : Score
  events : List Event
  warnings : List String
deriving DecidableEq

/-- The pre-loop break insertion ("Add layout breaks to the FIRST file"):
section breaks receive the configured bundle, other types none. -/
def applyBreaks0Go (tp : String) (bopts : Option BreakOpts) :
    List String → RunState → RunState
  | [], st => st
  | bt :: rest, st =>
    if bt ≠ "none" then
      let o := if bt == "section" then bopts else none
      applyBreaks0Go tp bopts rest
        { target := st.target.add_layout_break bt o,
          events := st.events ++ [.addBreak tp bt o],
          warnings := st.warnings }
    else applyBreaks0Go tp bopts rest st

/-- The `current_break_options` computation of the in-loop break insertion:
for a section break with a configured bundle, a repeat in the target's last
measure (under auto-detect) forces the pause of a local copy of the bundle to
zero; the shared bundle itself is not written to. -/
def loopBreakOpts (bopts : Option BreakOpts) (bt : String) (tgt : Score) : Option BreakOpts :=
  match bopts with
  | some b =>
    if bt == "section" then
      if b.auto_detect_repeats && tgt.has_repeats_in_last_measure then
        some { b with pause := 0 }
      else some b
    else none
  | none => none

/-- The in-loop break insertion before the second and subsequent accepted
sources. -/
def applyBreaksLoopGo (tp : String) (bopts : Option BreakOpts) :
    List String → RunState → RunState
  | [], st => st
  | bt :: rest, st =>
    if bt ≠ "none" then
      applyBreaksLoopGo tp bopts rest
        { target := st.target.add_layout_break bt (loopBreakOpts bopts bt st.target),
          events := st.events ++ [.addBreak tp bt (loopBreakOpts bopts bt st.target)],
          warnings := st.warnings }
    else applyBreaksLoopGo tp bopts rest st

/-- One iteration of the source loop: breaks (when not the first accepted
source), then the in-memory merge, recording collision warnings. -/
def processOne (tp : String) (opts : ConcatOptions) (gen : Nat → String → String)
    (i : Nat) (st : RunState) (src : Score) : RunState :=
  let st1 := if opts.break_type ≠ "none" ∧ 0 < i then
      applyBreaksLoopGo tp opts.break_options (breakTypesOf opts.break_type) st
    else st
  let res := Score.concatenate_score st1.target src (gen i)
      opts.copy_frames opts.copy_title_frames opts.copy_system_locks
  { target := res.target,
    events := st1.events ++ [.mergeSource src.basename],
    warnings := if res.hadDuplicates then st1.warnings ++ [src.basename] else st1.warnings }

def processSources (tp : String) (opts : ConcatOptions) (gen : Nat → String → String) :
    List Score → Nat → RunState → RunState
  | [], _, st => st
  | src :: rest, i, st =>
    processSources tp opts gen rest (i + 1) (processOne tp opts gen i st src)

structure ConcatOutcome where
  success : Bool
  skipped : List Skipped
  events : List Event
  target : Score
  warnings : List String
deriving DecidableEq

/-- `ms_concatenate.concatenate` over already-loaded documents
`docs = [(path, score), ...]`: usage guards, copy of the first file to the
target path, validation (skip or strict), pre-loop breaks, the source loop,
the terminal save, and optional picture appending. -/
def concatenate (docs : List (String × Score)) (target_path : String)
    (opts : ConcatOptions) (gen : Nat → String → String)
    (fuzzyOk : List String → List String → Bool) :
    Except String ConcatOutcome :=
  if docs.length < 2 then
    .error "You must provide at least two sources."
  else if !(docs.all (fun d => endsWithMscz d.1)) then
    .error "Unsupported file type. Only .mscz files are supported."
  else if !(endsWithMscz target_path) then
    .error "Target must be a .mscz file"
  else if docs.any (fun d => d.1 == target_path) then
    .error "Sources and Target must be different paths"
  else if !(docs.map Prod.fst).Nodup then
    .error "More than one Source are the same file"
  else
    match docs with
    | [] => .error "You must provide at least two sources."
    | first :: rest =>
      let target0 : Score := { first.2 with basename := pyBasename target_path }
      let ev0 : List Event := [.copyFile first.1 target_path]
      let vr := validate_and_skip_files target0 opts.fuzzy_matching fuzzyOk (rest.map Prod.snd)
      if !opts.skip_incompatible && !vr.2.isEmpty then
        .error "File has different instrumentation"
      else
        let st0 : RunState := ⟨target0, ev0, []⟩
        let st1 := if opts.break_type ≠ "none" ∧ 1 ≤ vr.1.length then
            applyBreaks0Go target_path opts.break_options (breakTypesOf opts.break_type) st0
          else st0
        let stF := processSources target_path opts gen vr.1 0 st1
        let evs := stF.events ++ [.saveTarget target_path] ++
          (if opts.copy_pictures then vr.1.map (fun _ => Event.appendPictures target_path) else [])
        .ok ⟨true, vr.2, evs, stF.target, stF.warnings⟩

/-- An event that writes to path `p` on disk: the initial whole-file copy, the
terminal save, or a picture append. -/
def isWriteTo (p : String) : Event → Bool
  | .copyFile _ dst => dst == p
  | .saveTarget dst => dst == p
  | .appendPictures dst => dst == p
  | _ => false

/-! ## Concrete fixtures used by counterexamples and witnesses -/

def mkMeasure (eids : List String) : Elem := ⟨"Measure", [], eids, false, []⟩

def c1T : Score := ⟨"t.mscz", [some "P"], [⟨some "1", [mkMeasure ["X"]]⟩], none⟩

/-- A source whose tree carries the eid `X` twice (and `X` also occurs in
`c1T`). -/
def c1S : Score :=
  ⟨"s.mscz", [some "P"], [⟨some "1", [mkMeasure ["X"], mkMeasure ["X"]]⟩], none⟩

def w1T : Score := ⟨"t.mscz", [some "P"], [⟨some "1", [mkMeasure ["X", "Y"]]⟩], none⟩

def w1S : Score := ⟨"s.mscz", [some "P"], [⟨some "1", [mkMeasure ["X", "Z"]]⟩], none⟩

def c2T : Score := ⟨"t.mscz", [some "P", some "Q"],
  [⟨some "1", [mkMeasure ["T1"]]⟩, ⟨some "2", [mkMeasure ["T2"]]⟩], none⟩

def c2Sa : Score := ⟨"s.mscz", [some "P", some "Q"],
  [⟨some "1", [mkMeasure ["A1"]]⟩, ⟨some "2", [mkMeasure ["A2"]]⟩], none⟩

/-- `c2Sa` with its two parts (and hence staffs) in the opposite order; staff
identifiers unchanged. -/
def c2Sb : Score := ⟨"s.mscz", [some "Q", some "P"],
  [⟨some "2", [mkMeasure ["A2"]]⟩, ⟨some "1", [mkMeasure ["A1"]]⟩], none⟩

def c3T : Score := ⟨"t.mscz", [some "P", some "Q"],
  [⟨some "1", [mkMeasure ["X"]]⟩, ⟨some "2", [mkMeasure ["Y"]]⟩], none⟩

/-- A source whose staffs are ordered `2, 1` while the target's are `1, 2`,
with an internally well-resolved system lock over its own measures. -/
def c3S : Score := ⟨"s.mscz", [some "P", some "Q"],
  [⟨some "2", [mkMeasure ["B"]]⟩, ⟨some "1", [mkMeasure ["A"]]⟩],
  some [⟨some "A", some "B"⟩]⟩

def w3T : Score := ⟨"t.mscz", [some "P"], [⟨some "1", [mkMeasure ["X"]]⟩],
  some [⟨some "X", some "X"⟩]⟩

def w3S : Score := ⟨"s.mscz", [some "P"], [⟨some "1", [mkMeasure ["X"]]⟩],
  some [⟨some "X", some "X"⟩]⟩

/-- A first frame whose text style is `"TITLE"`: not literally `"title"`, but
classified as a title frame by the code's strip-and-lowercase comparison. -/
def c6V : Elem := ⟨"VBox", ["TITLE"], [], false, []⟩

def c6W : Elem := ⟨"VBox", ["composer"], [], false, []⟩

def c8A : Score := ⟨"a.mscz", [some "P"], [⟨some "1", [mkMeasure ["X"]]⟩], none⟩

def c8B : Score := ⟨"b.mscz", [some "P"], [⟨some "1", [mkMeasure ["Y"]]⟩], none⟩

/-- The outcome of the concrete two-document run used for C8: the initial
copy of the first file, one in-memory merge, then the terminal save. -/
def c8Out : ConcatOutcome :=
  ⟨true, [],
    [Event.copyFile "a.mscz" "out.mscz", Event.mergeSource "b.mscz",
      Event.saveTarget "out.mscz"],
    ⟨"out.mscz", [some "P"], [⟨some "1", [mkMeasure ["X"], mkMeasure ["Y"]]⟩], none⟩, []⟩

def c7Entries : List ZipEntry :=
  [⟨"META-INF/container.xml", [1, 2]⟩, ⟨"score.mscx", [3]⟩, ⟨"Pictures/p.png", [9]⟩]

def w9Opts : BreakOpts := ⟨3, true, false, false, true, true⟩

def w9Target : Score := ⟨"t.mscz", [some "P"],
  [⟨some "1", [⟨"Measure", [], ["X"], true, []⟩]⟩], none⟩

def w9State : RunState := ⟨w9Target, [], []⟩

def w9Src : Score := ⟨"s.mscz", [some "P"], [⟨some "1", [mkMeasure ["Y"]]⟩], none⟩

def c10T : Score := ⟨"t.mscz", [some "P"], [⟨some "1", [mkMeasure ["X"]]⟩], none⟩

/-- Same single part name as `c10T` (so validation passes) but two staffs. -/
def c10S : Score := ⟨"s.mscz", [some "P"],
  [⟨some "1", [mkMeasure ["X"]]⟩, ⟨some "2", [mkMeasure ["W"]]⟩], none⟩

/-! ## Lemmas about the identifier generator -/

lemma base64Digit_mem : ∀ d < 64, base64Digit d ∈ base64Chars := by decide

lemma underscore_not_mem_base64Chars : '_' ∉ base64Chars := by decide

lemma toBase64Go_eq (n : Nat) : ∀ acc, toBase64Go n acc =
    ((Nat.digits 64 n).reverse.map base64Digit) ++ acc := by
  induction n using Nat.strong_induction_on with
  | _ n ih =>
    intro acc
    rw [toBase64Go]
    by_cases h : n = 0
    · simp [h]
    · rw [dif_neg h, ih (n / 64) (Nat.div_lt_self (Nat.pos_of_ne_zero h) (by decide)),
        Nat.digits_def' (by norm_num : (1:ℕ) < 64) (Nat.pos_of_ne_zero h)]
      simp [base64Digit]

lemma to_base64_eq_spec (n : Nat) : to_base64 n = specBase64Render n := by
  by_cases h : n = 0
  · subst h; rfl
  · rw [to_base64, specBase64Render, if_neg h, if_neg h, toBase64Go_eq,
      List.append_nil]
    rfl

lemma mem_to_base64 (n : Nat) (c : Char) (hc : c ∈ (to_base64 n).data) :
    c ∈ base64Chars := by
  rw [to_base64_eq_spec, specBase64Render] at hc
  by_cases h : n = 0
  · rw [if_pos h] at hc
    have : c = 'A' := by
      simpa using hc
    rw [this]; decide
  · rw [if_neg h] at hc
    have hc' : c ∈ (Nat.digits 64 n).reverse.map base64Digit := hc
    obtain ⟨d, hd, rfl⟩ := List.mem_map.mp hc'
    exact base64Digit_mem d
      (Nat.digits_lt_base (by norm_num) (List.mem_reverse.mp hd))

lemma generate_new_eid_data (a b : Nat) :
    (generate_new_eid a b).data = (to_base64 a).data ++ '_' :: (to_base64 b).data := by
  show ((to_base64 a ++ "_") ++ to_base64 b).data = _
  have h1 : ∀ s t : String, (s ++ t).data = s.data ++ t.data := fun _ _ => rfl
  rw [h1, h1]
  simp

/-- C4: for every pair of unsigned 64-bit input values, `generate_new_eid`
yields each value rendered most-significant-digit-first in base 64 over the
fixed alphabet A-Z, a-z, 0-9, plus, slash (zero rendering as the single
character A), the two renderings joined by a single underscore: the result
equals the spec's rendering and contains exactly one underscore character. -/
theorem C4_generator_format (a b : Nat) (ha : a < 2 ^ 64) (hb : b < 2 ^ 64) :
    generate_new_eid a b = specBase64Render a ++ "_" ++ specBase64Render b ∧
    (generate_new_eid a b).data.count '_' = 1 := by
  refine ⟨?_, ?_⟩
  · rw [generate_new_eid, to_base64_eq_spec, to_base64_eq_spec]
  · rw [generate_new_eid_data, List.count_append]
    have h1 : (to_base64 a).data.count '_' = 0 :=
      List.count_eq_zero.mpr fun h => underscore_not_mem_base64Chars (mem_to_base64 a '_' h)
    have h2 : (to_base64 b).data.count '_' = 0 :=
      List.count_eq_zero.mpr fun h => underscore_not_mem_base64Chars (mem_to_base64 b '_' h)
    simp [h1, h2]

/-- Witness for C4 at the concrete 64-bit pair (0, 65). -/
theorem C4_generator_format_witness :
    (0 : Nat) < 2 ^ 64 ∧ (65 : Nat) < 2 ^ 64 ∧
    (generate_new_eid 0 65 = specBase64Render 0 ++ "_" ++ specBase64Render 65 ∧
     (generate_new_eid 0 65).data.count '_' = 1) :=
  ⟨by decide, by decide, C4_generator_format 0 65 (by decide) (by decide)⟩

/-! ## General list lemmas for the eid-uniqueness and lock-resolution proofs -/

lemma flatten_sublist {α : Type} {l₁ l₂ : List (List α)} (h : l₁.Sublist l₂) :
    l₁.flatten.Sublist l₂.flatten := by
  induction h with
  | slnil => exact List.Sublist.refl _
  | cons a _ ih => exact ih.trans (List.sublist_append_right a _)
  | cons₂ a _ ih => exact ih.append_left a

lemma flatten_map_sublist {α γ : Type} (l : List γ) (f g : γ → List α)
    (h : ∀ x ∈ l, (f x).Sublist (g x)) :
    ((l.map f).flatten).Sublist ((l.map g).flatten) := by
  induction l with
  | nil => exact List.Sublist.refl _
  | cons a rest ih =>
    simp only [List.map_cons, List.flatten_cons]
    exact (h a (by simp)).append (ih (fun x hx => h x (by simp [hx])))

lemma flatten_map_append_perm {α γ : Type} (l : List γ) (f g : γ → List α) :
    ((l.map (fun x => f x ++ g x)).flatten).Perm ((l.map f).flatten ++ (l.map g).flatten) := by
  induction l with
  | nil => simp
  | cons a rest ih =>
    simp only [List.map_cons, List.flatten_cons]
    refine (ih.append_left (f a ++ g a)).trans ?_
    have e1 : (f a ++ g a) ++ ((rest.map f).flatten ++ (rest.map g).flatten)
        = f a ++ ((g a ++ (rest.map f).flatten) ++ (rest.map g).flatten) := by
      simp [List.append_assoc]
    have e2 : (f a ++ (rest.map f).flatten) ++ (g a ++ (rest.map g).flatten)
        = f a ++ (((rest.map f).flatten ++ g a) ++ (rest.map g).flatten) := by
      simp [List.append_assoc]
    rw [e1, e2]
    exact (List.perm_append_comm.append_right _).append_left _

lemma filter_map_comm {α : Type} (h : α → α) (p : α → Bool) (l : List α)
    (hp : ∀ a, p (h a) = p a) :
    (l.map h).filter p = (l.filter p).map h := by
  induction l with
  | nil => rfl
  | cons a rest ih =>
    by_cases hpa : p a = true
    · simp [List.filter_cons, hp, hpa, ih]
    · simp only [Bool.not_eq_true] at hpa
      simp [List.filter_cons, hp, hpa, ih]

/-! ## Lemmas about eid collection, renaming and the staff merge -/

lemma mem_allEids_ne_empty {s : Score} {e : String} (h : e ∈ s.allEids) : e ≠ "" := by
  have h2 := (List.mem_filter.mp h).2
  simpa using h2

lemma mem_find_duplicate_eids {target source : Score} {e : String} :
    e ∈ find_duplicate_eids target source ↔
      e ∈ target.allEids ∧ e ∈ source.allEids := by
  unfold find_duplicate_eids
  rw [List.mem_dedup, List.mem_filter]
  simp

lemma renameEid_of_mem {dups : List String} {gen : String → String} {e : String}
    (h : e ∈ dups) : renameEid dups gen e = gen e := if_pos h

lemma renameEid_of_not_mem {dups : List String} {gen : String → String} {e : String}
    (h : e ∉ dups) : renameEid dups gen e = e := if_neg h

lemma rename_rawEids (dups : List String) (gen : String → String) (src : Score) :
    (rename_duplicate_eids dups gen src).rawEids = src.rawEids.map (renameEid dups gen) := by
  simp [rename_duplicate_eids, Score.rawEids, Staff.renameEids, Staff.rawEids,
    Elem.renameEids, List.map_flatten, List.map_map, Function.comp_def]

lemma rename_allEids (dups : List String) (gen : String → String) (src : Score)
    (hne : ∀ d ∈ dups, gen d ≠ "") (hdne : ∀ d ∈ dups, d ≠ "") :
    (rename_duplicate_eids dups gen src).allEids = src.allEids.map (renameEid dups gen) := by
  unfold Score.allEids
  rw [rename_rawEids]
  refine filter_map_comm _ _ _ ?_
  intro a
  by_cases h : a ∈ dups
  · rw [renameEid_of_mem h]
    have h1 : gen a ≠ "" := hne a h
    have h2 : a ≠ "" := hdne a h
    rw [show (gen a != "") = true by simpa using h1,
      show (a != "") = true by simpa using h2]
  · rw [renameEid_of_not_mem h]

lemma dedupSource_allEids (target source : Score) (gen : String → String)
    (hfresh : ∀ d ∈ find_duplicate_eids target source, gen d ≠ "") :
    (dedupSource target source gen).allEids =
      source.allEids.map (renameEid (find_duplicate_eids target source) gen) := by
  have hsplit : dedupSource target source gen =
      if (find_duplicate_eids target source).isEmpty then source
      else rename_duplicate_eids (find_duplicate_eids target source) gen source := rfl
  rw [hsplit]
  by_cases h : (find_duplicate_eids target source).isEmpty
  · have hnil : find_duplicate_eids target source = [] := by simpa using h
    rw [hnil]
    simp only [List.isEmpty_nil, if_true]
    symm
    have hid : List.map (renameEid [] gen) source.allEids =
        List.map (fun e => e) source.allEids :=
      List.map_congr_left fun e _ => renameEid_of_not_mem (List.not_mem_nil e)
    rw [hid, List.map_id']
  · rw [if_neg h]
    exact rename_allEids _ _ _ hfresh
      (fun d hd => mem_allEids_ne_empty (mem_find_duplicate_eids.mp hd).2)

lemma dedupSource_staffs_length (target source : Score) (gen : String → String) :
    (dedupSource target source gen).staffs.length = source.staffs.length := by
  have hsplit : dedupSource target source gen =
      if (find_duplicate_eids target source).isEmpty then source
      else rename_duplicate_eids (find_duplicate_eids target source) gen source := rfl
  rw [hsplit]
  split <;> simp [rename_duplicate_eids]

lemma copy_sublist (cf ctf : Bool) : ∀ (ff : Bool) (l : List Elem),
    (copyStaffElems cf ctf ff l).Sublist l := by
  intro ff l
  induction l generalizing ff with
  | nil => simp [copyStaffElems]
  | cons e rest ih =>
    rw [copyStaffElems]
    split_ifs
    · exact (ih ff).cons₂ e
    · exact (ih false).cons e
    · exact (ih false).cons₂ e
    · exact (ih ff).cons e

lemma mergeStaffPair_rawEids (cf ctf : Bool) (t s : Staff) :
    (mergeStaffPair cf ctf t s).rawEids =
      t.rawEids ++ (if t.id = s.id then
        ((copyStaffElems cf ctf true s.elems).map Elem.eidTexts).flatten else []) := by
  unfold mergeStaffPair
  by_cases h : t.id = s.id
  · simp [h, Staff.rawEids]
  · simp [h]

lemma mergeLocks_staffs (csl : Bool) (t s : Score) : (mergeLocks csl t s).staffs = t.staffs := by
  unfold mergeLocks
  split_ifs
  · split
    · rfl
    · split <;> rfl
  · rfl

lemma concatenate_score_target_mismatch (target source : Score) (gen : String → String)
    (cf ctf csl : Bool)
    (h : target.staffs.length ≠ (dedupSource target source gen).staffs.length) :
    (Score.concatenate_score target source gen cf ctf csl).target = target := by
  unfold Score.concatenate_score
  simp [h]

lemma concatenate_score_target_merge (target source : Score) (gen : String → String)
    (cf ctf csl : Bool)
    (h : target.staffs.length = (dedupSource target source gen).staffs.length) :
    (Score.concatenate_score target source gen cf ctf csl).target =
      mergeLocks csl
        { target with staffs := ((target.staffs.zip (dedupSource target source gen).staffs).map
            (fun p => mergeStaffPair cf ctf p.1 p.2)) }
        (dedupSource target source gen) := by
  unfold Score.concatenate_score
  simp [h]

lemma merged_rawEids_perm (cf ctf : Bool) (ts ss : List Staff) (hlen : ts.length = ss.length) :
    ((((ts.zip ss).map (fun p => mergeStaffPair cf ctf p.1 p.2)).map Staff.rawEids).flatten).Perm
      ((ts.map Staff.rawEids).flatten ++
        ((ts.zip ss).map (fun p => if p.1.id = p.2.id then
          ((copyStaffElems cf ctf true p.2.elems).map Elem.eidTexts).flatten else [])).flatten) := by
  rw [List.map_map]
  have hmap : (ts.zip ss).map (Staff.rawEids ∘ fun p => mergeStaffPair cf ctf p.1 p.2)
      = (ts.zip ss).map (fun p => p.1.rawEids ++ (if p.1.id = p.2.id then
          ((copyStaffElems cf ctf true p.2.elems).map Elem.eidTexts).flatten else [])) := by
    refine List.map_congr_left ?_
    intro p _
    exact mergeStaffPair_rawEids cf ctf p.1 p.2
  rw [hmap]
  refine (flatten_map_append_perm _ _ _).trans ?_
  have hfst : (ts.zip ss).map (fun p => p.1.rawEids) = ts.map Staff.rawEids := by
    have : (fun p : Staff × Staff => p.1.rawEids) = Staff.rawEids ∘ Prod.fst := rfl
    rw [this, ← List.map_map, List.map_fst_zip ts ss (le_of_eq hlen)]
  rw [hfst]

lemma extra_flatten_sublist (cf ctf : Bool) (ts ss : List Staff)
    (hlen : ts.length = ss.length) :
    (((ts.zip ss).map (fun p => if p.1.id = p.2.id then
        ((copyStaffElems cf ctf true p.2.elems).map Elem.eidTexts).flatten else [])).flatten).Sublist
      ((ss.map Staff.rawEids).flatten) := by
  have h1 : (((ts.zip ss).map (fun p => if p.1.id = p.2.id then
      ((copyStaffElems cf ctf true p.2.elems).map Elem.eidTexts).flatten else [])).flatten).Sublist
      (((ts.zip ss).map (fun p => p.2.rawEids)).flatten) := by
    refine flatten_map_sublist _ _ _ ?_
    intro p _
    by_cases h : p.1.id = p.2.id
    · rw [if_pos h]
      exact flatten_sublist (((copy_sublist cf ctf true p.2.elems).map Elem.eidTexts))
    · rw [if_neg h]
      exact List.nil_sublist _
  have h2 : (ts.zip ss).map (fun p => p.2.rawEids) = ss.map Staff.rawEids := by
    have : (fun p : Staff × Staff => p.2.rawEids) = Staff.rawEids ∘ Prod.snd := rfl
    rw [this, ← List.map_map, List.map_snd_zip ts ss (ge_of_eq hlen)]
  rw [h2] at h1
  exact h1

/-! ## C1: identifier uniqueness after a merge with collisions -/

/-- C1 counterexample: `c1S` carries the colliding eid `X` twice; the single
mapping entry renames both occurrences to the same fresh identifier `N`
(fresh for both documents), so after the merge the target document carries
`N` twice and the union of its identifiers has a duplicate. -/
theorem C1_counterexample :
    (Score.concatenate_score c1T c1S (fun _ => "N") true true true).hadDuplicates = true ∧
    "N" ∉ c1T.allEids ∧ "N" ∉ c1S.allEids ∧
    ¬ (Score.concatenate_score c1T c1S (fun _ => "N") true true true).target.allEids.Nodup :=
  ⟨by decide, by decide, by decide, by decide⟩

/-- C1 (amended): if each document's identifiers are internally
duplicate-free, and the generated replacements are fresh for both documents,
non-empty, and pairwise distinct, then after the merge the union of all
identifiers of the target document has no duplicates, and every identifier of
the original target is still present (the target's own instances are
untouched; only the source is renamed). -/
theorem C1_eid_uniqueness (target source : Score) (gen : String → String) (cf ctf csl : Bool)
    (htn : target.allEids.Nodup) (hsn : source.allEids.Nodup)
    (hfresh : ∀ d ∈ find_duplicate_eids target source,
      gen d ∉ target.allEids ∧ gen d ∉ source.allEids ∧ gen d ≠ "")
    (hinj : ∀ d₁ ∈ find_duplicate_eids target source,
      ∀ d₂ ∈ find_duplicate_eids target source, gen d₁ = gen d₂ → d₁ = d₂) :
    (Score.concatenate_score target source gen cf ctf csl).target.allEids.Nodup ∧
    ∀ e ∈ target.allEids,
      e ∈ (Score.concatenate_score target source gen cf ctf csl).target.allEids := by
  have hsrc2eids : (dedupSource target source gen).allEids =
      source.allEids.map (renameEid (find_duplicate_eids target source) gen) :=
    dedupSource_allEids target source gen (fun d hd => (hfresh d hd).2.2)
  have hbig : (target.allEids ++ (dedupSource target source gen).allEids).Nodup := by
    rw [hsrc2eids, List.nodup_append]
    refine ⟨htn, ?_, ?_⟩
    · refine hsn.map_on ?_
      intro x hx y hy hxy
      by_cases hxd : x ∈ find_duplicate_eids target source <;>
        by_cases hyd : y ∈ find_duplicate_eids target source
      · exact hinj x hxd y hyd
          (by rwa [renameEid_of_mem hxd, renameEid_of_mem hyd] at hxy)
      · exfalso
        rw [renameEid_of_mem hxd, renameEid_of_not_mem hyd] at hxy
        exact (hfresh x hxd).2.1 (hxy ▸ hy)
      · exfalso
        rw [renameEid_of_not_mem hxd, renameEid_of_mem hyd] at hxy
        exact (hfresh y hyd).2.1 (hxy ▸ hx)
      · rwa [renameEid_of_not_mem hxd, renameEid_of_not_mem hyd] at hxy
    · intro t ht hmem
      obtain ⟨e, he, hrn⟩ := List.mem_map.mp hmem
      by_cases hed : e ∈ find_duplicate_eids target source
      · rw [renameEid_of_mem hed] at hrn
        exact (hfresh e hed).1 (by rwa [hrn])
      · rw [renameEid_of_not_mem hed] at hrn
        subst hrn
        exact hed (mem_find_duplicate_eids.mpr ⟨ht, he⟩)
  by_cases hlen : target.staffs.length = (dedupSource target source gen).staffs.length
  · rw [concatenate_score_target_merge target source gen cf ctf csl hlen]
    have hraw : (mergeLocks csl
        { target with staffs := ((target.staffs.zip (dedupSource target source gen).staffs).map
            (fun p => mergeStaffPair cf ctf p.1 p.2)) }
        (dedupSource target source gen)).rawEids =
        ((((target.staffs.zip (dedupSource target source gen).staffs).map
          (fun p => mergeStaffPair cf ctf p.1 p.2)).map Staff.rawEids).flatten) := by
      unfold Score.rawEids
      rw [mergeLocks_staffs]
    have hperm0 := merged_rawEids_perm cf ctf target.staffs
      (dedupSource target source gen).staffs hlen
    rw [← hraw] at hperm0
    have hpermAll := (hperm0.filter (fun e => e != ""))
    rw [List.filter_append] at hpermAll
    have hsubE : ((((target.staffs.zip (dedupSource target source gen).staffs).map
        (fun p => if p.1.id = p.2.id then
          ((copyStaffElems cf ctf true p.2.elems).map Elem.eidTexts).flatten else [])).flatten).filter
          (fun e => e != "")).Sublist (dedupSource target source gen).allEids :=
      (extra_flatten_sublist cf ctf target.staffs (dedupSource target source gen).staffs
        hlen).filter _
    have hnodup2 : ((target.rawEids.filter (fun e => e != "")) ++
        ((((target.staffs.zip (dedupSource target source gen).staffs).map
          (fun p => if p.1.id = p.2.id then
            ((copyStaffElems cf ctf true p.2.elems).map Elem.eidTexts).flatten else [])).flatten).filter
            (fun e => e != ""))).Nodup :=
      hbig.sublist ((List.Sublist.refl target.allEids).append hsubE)
    constructor
    · exact (hpermAll.nodup_iff).mpr hnodup2
    · intro e he
      exact (hpermAll.mem_iff).mpr (List.mem_append_left _ he)
  · rw [concatenate_score_target_mismatch target source gen cf ctf csl hlen]
    exact ⟨htn, fun e he => he⟩

/-- Witness for C1 (amended) at a pair of documents sharing the eid `X`,
renamed to the fresh `W`. -/
theorem C1_eid_uniqueness_witness :
    (Score.concatenate_score w1T w1S (fun _ => "W") true true true).target.allEids.Nodup ∧
    "X" ∈ (Score.concatenate_score w1T w1S (fun _ => "W") true true true).target.allEids :=
  ⟨(C1_eid_uniqueness w1T w1S (fun _ => "W") true true true
      (by decide) (by decide) (by decide) (by decide)).1,
   (C1_eid_uniqueness w1T w1S (fun _ => "W") true true true
      (by decide) (by decide) (by decide) (by decide)).2 "X" (by decide)⟩

/-! ## C2: staff pairing -/

/-- C2 counterexample: `c2Sb` is `c2Sa` with its parts reordered (staff
identifiers constant: the staff multiset and part-name multiset are
permutations), yet the merge result differs — with the reordered source the
positional `zip` pairs staffs of unequal ids and skips both, so nothing at
all is merged. -/
theorem C2_counterexample :
    c2Sb.staffs.Perm c2Sa.staffs ∧ c2Sb.partNames.Perm c2Sa.partNames ∧
    (Score.concatenate_score c2T c2Sb (fun e => e) true true true).target = c2T ∧
    (Score.concatenate_score c2T c2Sa (fun e => e) true true true).target ≠
      (Score.concatenate_score c2T c2Sb (fun e => e) true true true).target :=
  ⟨by decide, by decide, by decide, by decide⟩

/-- C2 (amended): when the staff counts agree, the merge walks the two staff
lists in parallel by array position; the pair at position `i` is merged
(source elements appended) exactly when the two staffs at that position carry
the same `id` attribute, and is skipped without error (target staff returned
unchanged) otherwise.  Pairing is positional, so reordering the source's
parts can change the result (see the counterexample). -/
theorem C2_staff_pairing (target source : Score) (gen : String → String) (cf ctf csl : Bool)
    (hlen : target.staffs.length = source.staffs.length) :
    (Score.concatenate_score target source gen cf ctf csl).target.staffs.length =
      target.staffs.length ∧
    ∀ (i : Nat) (t s : Staff), target.staffs[i]? = some t →
      (dedupSource target source gen).staffs[i]? = some s →
      (Score.concatenate_score target source gen cf ctf csl).target.staffs[i]? =
        some (if t.id = s.id then
          { t with elems := t.elems ++ copyStaffElems cf ctf true s.elems } else t) := by
  have hlen2 : target.staffs.length = (dedupSource target source gen).staffs.length := by
    rw [dedupSource_staffs_length]; exact hlen
  rw [concatenate_score_target_merge target source gen cf ctf csl hlen2, mergeLocks_staffs]
  constructor
  · simp [List.length_zip, ← hlen2]
  · intro i t s ht hs
    have hz : (target.staffs.zip (dedupSource target source gen).staffs)[i]? = some (t, s) :=
      (List.getElem?_zip_eq_some).mpr ⟨ht, hs⟩
    rw [List.getElem?_map, hz]
    rfl

/-- Witness for C2 (amended) at the aligned pair, position 0. -/
theorem C2_staff_pairing_witness :
    (Score.concatenate_score c2T c2Sa (fun e => e) true true true).target.staffs[0]? =
      some (if (Staff.mk (some "1") [mkMeasure ["T1"]]).id =
          (Staff.mk (some "1") [mkMeasure ["A1"]]).id then
        { Staff.mk (some "1") [mkMeasure ["T1"]] with
          elems := [mkMeasure ["T1"]] ++ copyStaffElems true true true [mkMeasure ["A1"]] }
        else Staff.mk (some "1") [mkMeasure ["T1"]]) :=
  (C2_staff_pairing c2T c2Sa (fun e => e) true true true (by decide)).2 0
    (Staff.mk (some "1") [mkMeasure ["T1"]]) (Staff.mk (some "1") [mkMeasure ["A1"]])
    (by decide) (by decide)

/-! ## C6: frame and measure handling during a staff merge -/

lemma frame_tag_ne_measure {t : String} (h : FRAME_TAGS.contains t = true) :
    ¬((t == "Measure") = true) := by
  intro hM
  have ht : t = "Measure" := eq_of_beq hM
  rw [ht] at h
  exact absurd h (by decide)

/-- Measures are always copied: the `Measure`-tagged subsequence of the copied
output equals that of the input, for every option combination and first-frame
state. -/
lemma copy_measures_filter (cf ctf : Bool) : ∀ (ff : Bool) (l : List Elem),
    (copyStaffElems cf ctf ff l).filter (fun e => e.tag == "Measure") =
      l.filter (fun e => e.tag == "Measure") := by
  intro ff l
  induction l generalizing ff with
  | nil => rfl
  | cons e rest ih =>
    by_cases h1 : (e.tag == "Measure") = true
    · rw [copyStaffElems, if_pos h1, List.filter_cons, List.filter_cons,
        if_pos h1, if_pos h1, ih ff]
    · by_cases h2 : (cf && FRAME_TAGS.contains e.tag) = true
      · by_cases h3 : (ff && !ctf && (e.tag == "VBox" || e.tag == "TBox")
            && looksLikeTitle e) = true
        · rw [copyStaffElems, if_neg h1, if_pos h2, if_pos h3, ih false,
            List.filter_cons, if_neg h1]
        · rw [copyStaffElems, if_neg h1, if_pos h2, if_neg h3, List.filter_cons,
            if_neg h1, ih false, List.filter_cons, if_neg h1]
      · rw [copyStaffElems, if_neg h1, if_neg h2, ih ff, List.filter_cons, if_neg h1]

/-- C6 counterexample: the first frame `c6V` carries a text style `"TITLE"` —
no style of it is literally `"title"` — yet the code's strip-and-lowercase
comparison classifies it as a title frame and drops it (frame copying on,
title-frame copying off), so the claimed "literally" iff fails. -/
theorem C6_counterexample :
    (c6V.textStyles.all (fun s => s != "title")) = true ∧
    looksLikeTitle c6V = true ∧
    copyStaffElems true false true [c6V, c6W] = [c6W] :=
  ⟨by decide, by decide, by decide⟩

/-- C6 (amended): with frame copying enabled and title-frame copying
disabled, (1) `Measure` children are always copied (for every option
combination); (2) a first frame whose tag is `VBox` or `TBox` and which
contains a text whose style — stripped and lowercased — equals `"title"` is
silently dropped, and the immediately following non-title frame is still
copied in its place; (3) a frame that is not the first frame encountered is
never dropped. -/
theorem C6_frame_handling :
    (∀ (cf ctf ff : Bool) (l : List Elem),
      (copyStaffElems cf ctf ff l).filter (fun e => e.tag == "Measure") =
        l.filter (fun e => e.tag == "Measure")) ∧
    (∀ (e f : Elem) (rest : List Elem),
      FRAME_TAGS.contains e.tag = true → (e.tag = "VBox" ∨ e.tag = "TBox") →
      looksLikeTitle e = true →
      FRAME_TAGS.contains f.tag = true → looksLikeTitle f = false →
      copyStaffElems true false true (e :: f :: rest) =
        f :: copyStaffElems true false false rest) ∧
    (∀ (e : Elem) (rest : List Elem), FRAME_TAGS.contains e.tag = true →
      copyStaffElems true false false (e :: rest) =
        e :: copyStaffElems true false false rest) := by
  have hnf : ∀ (e : Elem) (rest : List Elem), FRAME_TAGS.contains e.tag = true →
      copyStaffElems true false false (e :: rest) =
        e :: copyStaffElems true false false rest := by
    intro e rest he
    rw [copyStaffElems, if_neg (frame_tag_ne_measure he), if_pos (by simpa using he),
      if_neg (by simp)]
  refine ⟨copy_measures_filter, ?_, hnf⟩
  intro e f rest he hvt ht hf _
  have hcond : (true && !false && (e.tag == "VBox" || e.tag == "TBox")
      && looksLikeTitle e) = true := by
    rcases hvt with h | h <;> simp [h, ht]
  rw [copyStaffElems, if_neg (frame_tag_ne_measure he), if_pos (by simpa using he),
    if_pos hcond, hnf f rest hf]

/-- Witness for C6 (amended): part (2) applied to the concrete title frame
`c6V` followed by the plain frame `c6W`. -/
theorem C6_frame_handling_witness :
    copyStaffElems true false true [c6V, c6W] =
      c6W :: copyStaffElems true false false [] :=
  C6_frame_handling.2.1 c6V c6W [] (by decide) (Or.inl (by decide)) (by decide)
    (by decide) (by decide)


/-! ## C3: system-lock reference resolution -/

lemma locksResolvedB_iff (s : Score) : s.locksResolvedB = true ↔
    ∀ l ∈ s.systemLocks.getD [],
      (∀ t, l.startMeasure = some t → t ∈ s.measureEids) ∧
      (∀ t, l.endMeasure = some t → t ∈ s.measureEids) := by
  unfold Score.locksResolvedB
  rw [List.all_eq_true]
  refine forall_congr' (fun l => imp_congr_right (fun _ => ?_))
  rw [Bool.and_eq_true]
  constructor
  · rintro ⟨h1, h2⟩
    constructor
    · intro t ht; rw [ht] at h1; simpa [refResolvedB] using h1
    · intro t ht; rw [ht] at h2; simpa [refResolvedB] using h2
  · rintro ⟨h1, h2⟩
    constructor
    · cases hsm : l.startMeasure with
      | none => simp [refResolvedB]
      | some t => simpa [refResolvedB] using h1 t hsm
    · cases hsm : l.endMeasure with
      | none => simp [refResolvedB]
      | some t => simpa [refResolvedB] using h2 t hsm

lemma renameEid_ne_empty (dups : List String) (gen : String → String)
    (hne : ∀ d ∈ dups, gen d ≠ "") (hdne : ∀ d ∈ dups, d ≠ "") :
    ∀ a, ((renameEid dups gen a) != "") = (a != "") := by
  intro a
  by_cases h : a ∈ dups
  · rw [renameEid_of_mem h, show (gen a != "") = true by simpa using hne a h,
      show (a != "") = true by simpa using hdne a h]
  · rw [renameEid_of_not_mem h]

lemma rename_measureRawEids (dups : List String) (gen : String → String) (st : Staff) :
    (Staff.renameEids dups gen st).measureRawEids =
      st.measureRawEids.map (renameEid dups gen) := by
  unfold Staff.measureRawEids Staff.renameEids
  rw [filter_map_comm (Elem.renameEids dups gen) (fun e => e.tag == "Measure")
      st.elems (fun _ => rfl)]
  simp [List.map_flatten, List.map_map, Function.comp_def, Elem.renameEids]

lemma rename_score_measureEids (dups : List String) (gen : String → String) (src : Score)
    (hne : ∀ d ∈ dups, gen d ≠ "") (hdne : ∀ d ∈ dups, d ≠ "") :
    (rename_duplicate_eids dups gen src).measureEids =
      src.measureEids.map (renameEid dups gen) := by
  unfold Score.measureEids
  have h1 : (rename_duplicate_eids dups gen src).staffs.map Staff.measureRawEids
      = (src.staffs.map Staff.measureRawEids).map (List.map (renameEid dups gen)) := by
    show (src.staffs.map (Staff.renameEids dups gen)).map Staff.measureRawEids = _
    rw [List.map_map, List.map_map]
    exact List.map_congr_left (fun st _ => rename_measureRawEids dups gen st)
  rw [h1, ← List.map_flatten]
  exact filter_map_comm _ _ _ (renameEid_ne_empty dups gen hne hdne)

lemma dedupSource_measureEids (target source : Score) (gen : String → String)
    (hfresh : ∀ d ∈ find_duplicate_eids target source, gen d ≠ "") :
    (dedupSource target source gen).measureEids =
      source.measureEids.map (renameEid (find_duplicate_eids target source) gen) := by
  have hsplit : dedupSource target source gen =
      if (find_duplicate_eids target source).isEmpty then source
      else rename_duplicate_eids (find_duplicate_eids target source) gen source := rfl
  rw [hsplit]
  by_cases h : (find_duplicate_eids target source).isEmpty
  · have hnil : find_duplicate_eids target source = [] := by simpa using h
    rw [hnil]
    simp only [List.isEmpty_nil, if_true]
    symm
    have hid : List.map (renameEid [] gen) source.measureEids =
        List.map (fun e => e) source.measureEids :=
      List.map_congr_left fun e _ => renameEid_of_not_mem (List.not_mem_nil e)
    rw [hid, List.map_id']
  · rw [if_neg h]
    exact rename_score_measureEids _ _ _ hfresh
      (fun d hd => mem_allEids_ne_empty (mem_find_duplicate_eids.mp hd).2)

lemma dedupSource_staff_ids (target source : Score) (gen : String → String) :
    (dedupSource target source gen).staffs.map Staff.id = source.staffs.map Staff.id := by
  have hsplit : dedupSource target source gen =
      if (find_duplicate_eids target source).isEmpty then source
      else rename_duplicate_eids (find_duplicate_eids target source) gen source := rfl
  rw [hsplit]
  split
  · rfl
  · show (source.staffs.map (Staff.renameEids _ gen)).map Staff.id = _
    rw [List.map_map]
    exact List.map_congr_left (fun st _ => rfl)

lemma dedupSource_locks (target source : Score) (gen : String → String) :
    (dedupSource target source gen).systemLocks.getD [] =
      (source.systemLocks.getD []).map
        (SysLock.renameRefs (find_duplicate_eids target source) gen) := by
  have hsplit : dedupSource target source gen =
      if (find_duplicate_eids target source).isEmpty then source
      else rename_duplicate_eids (find_duplicate_eids target source) gen source := rfl
  rw [hsplit]
  by_cases h : (find_duplicate_eids target source).isEmpty
  · have hnil : find_duplicate_eids target source = [] := by simpa using h
    rw [hnil]
    simp only [List.isEmpty_nil, if_true]
    have hid : ∀ l : SysLock, SysLock.renameRefs [] gen l = l := by
      intro l
      cases l with
      | mk sm em =>
        unfold SysLock.renameRefs
        congr 1
        · cases sm <;> simp [renameEid]
        · cases em <;> simp [renameEid]
    symm
    have hmapid : (source.systemLocks.getD []).map (SysLock.renameRefs [] gen) =
        (source.systemLocks.getD []).map (fun l => l) :=
      List.map_congr_left (fun l _ => hid l)
    rw [hmapid, List.map_id']
  · rw [if_neg h]
    cases hsm : source.systemLocks <;> simp [rename_duplicate_eids, hsm]

lemma zip_map_eq {α β : Type} (f : α → β) : ∀ (ts ss : List α), ts.map f = ss.map f →
    ∀ p ∈ ts.zip ss, f p.1 = f p.2 := by
  intro ts
  induction ts with
  | nil => intro ss _ p hp; simp at hp
  | cons t ts ih =>
    intro ss h p hp
    cases ss with
    | nil => simp at hp
    | cons s ss =>
      simp only [List.map_cons, List.cons.injEq] at h
      rw [List.zip_cons_cons] at hp
      rcases List.mem_cons.mp hp with rfl | hp2
      · exact h.1
      · exact ih ss h.2 p hp2

lemma merged_measureRaw_perm (cf ctf : Bool) (ts ss : List Staff)
    (hlen : ts.length = ss.length) (hids : ∀ p ∈ ts.zip ss, p.1.id = p.2.id) :
    ((((ts.zip ss).map (fun p => mergeStaffPair cf ctf p.1 p.2)).map
        Staff.measureRawEids).flatten).Perm
      ((ts.map Staff.measureRawEids).flatten ++ (ss.map Staff.measureRawEids).flatten) := by
  rw [List.map_map]
  have hmap : (ts.zip ss).map (Staff.measureRawEids ∘ fun p => mergeStaffPair cf ctf p.1 p.2)
      = (ts.zip ss).map (fun p => p.1.measureRawEids ++ p.2.measureRawEids) := by
    refine List.map_congr_left (fun p hp => ?_)
    show Staff.measureRawEids (mergeStaffPair cf ctf p.1 p.2) = _
    unfold mergeStaffPair
    rw [if_pos (hids p hp)]
    unfold Staff.measureRawEids
    rw [List.filter_append, copy_measures_filter, List.map_append, List.flatten_append]
  rw [hmap]
  refine (flatten_map_append_perm _ _ _).trans ?_
  have hfst : (ts.zip ss).map (fun p => p.1.measureRawEids) = ts.map Staff.measureRawEids := by
    have he : (fun p : Staff × Staff => p.1.measureRawEids) =
        Staff.measureRawEids ∘ Prod.fst := rfl
    rw [he, ← List.map_map, List.map_fst_zip ts ss (le_of_eq hlen)]
  have hsnd : (ts.zip ss).map (fun p => p.2.measureRawEids) = ss.map Staff.measureRawEids := by
    have he : (fun p : Staff × Staff => p.2.measureRawEids) =
        Staff.measureRawEids ∘ Prod.snd := rfl
    rw [he, ← List.map_map, List.map_snd_zip ts ss (ge_of_eq hlen)]
  rw [hfst, hsnd]

lemma mergeLocks_locks_mem (csl : Bool) (t s : Score) :
    ∀ l ∈ (mergeLocks csl t s).systemLocks.getD [],
      l ∈ t.systemLocks.getD [] ++ s.systemLocks.getD [] := by
  intro l hl
  unfold mergeLocks at hl
  rw [List.mem_append]
  by_cases hcsl : csl = true
  · rw [if_pos hcsl] at hl
    cases hsm : s.systemLocks with
    | none =>
      rw [hsm] at hl
      exact Or.inl hl
    | some srcLocks =>
      rw [hsm] at hl
      cases htm : t.systemLocks with
      | none =>
        rw [htm] at hl
        simp only [Option.getD_some] at hl
        right; simpa using hl
      | some tgtLocks =>
        rw [htm] at hl
        simp only [Option.getD_some] at hl
        rcases List.mem_append.mp hl with h1 | h2
        · left; simpa using h1
        · right; simpa using h2
  · rw [if_neg hcsl] at hl
    exact Or.inl hl


lemma mergeLocks_measureEids (csl : Bool) (t s : Score) :
    (mergeLocks csl t s).measureEids = t.measureEids := by
  unfold Score.measureEids
  rw [mergeLocks_staffs]

/-- C3 counterexample: both documents' system-lock references resolve before
the merge and deduplication runs (it finds no collisions), but the source's
staffs are ordered `2, 1` against the target's `1, 2`: the positional staff
walk skips both pairs — copying no measures — while the system-lock block
still appends the source's lock, so after the merge the target holds a lock
whose references resolve to no Measure eid. -/
theorem C3_counterexample :
    c3T.locksResolvedB = true ∧ c3S.locksResolvedB = true ∧
    (Score.concatenate_score c3T c3S (fun e => e) true true true).target.locksResolvedB
      = false :=
  ⟨by decide, by decide, by decide⟩

/-- C3 (amended): if every system-lock reference of the target resolves to a
target Measure eid, every system-lock reference of the source resolves to a
source Measure eid, the staff counts agree and the staff id sequences align
positionwise (so every source measure is copied), and the generated
replacement eids are non-empty, then after deduplication and merge every
system-lock reference in the target resolves to an existing Measure eid —
the renaming pass having rewritten the source's lock references through the
same mapping as the measure eids before the lock entries were appended. -/
theorem C3_lock_resolution (target source : Score) (gen : String → String) (cf ctf csl : Bool)
    (htr : target.locksResolvedB = true) (hsr : source.locksResolvedB = true)
    (hlen : target.staffs.length = source.staffs.length)
    (hids : target.staffs.map Staff.id = source.staffs.map Staff.id)
    (hfresh : ∀ d ∈ find_duplicate_eids target source, gen d ≠ "") :
    (Score.concatenate_score target source gen cf ctf csl).target.locksResolvedB = true := by
  have hlen2 : target.staffs.length = (dedupSource target source gen).staffs.length := by
    rw [dedupSource_staffs_length]; exact hlen
  have hids2 : target.staffs.map Staff.id = (dedupSource target source gen).staffs.map Staff.id := by
    rw [dedupSource_staff_ids]; exact hids
  have hidsp : ∀ p ∈ target.staffs.zip (dedupSource target source gen).staffs, p.1.id = p.2.id :=
    zip_map_eq Staff.id _ _ hids2
  rw [concatenate_score_target_merge target source gen cf ctf csl hlen2]
  have hperm := merged_measureRaw_perm cf ctf target.staffs
    (dedupSource target source gen).staffs hlen2 hidsp
  have hmemM : ∀ x, (x ∈ target.measureEids ∨ x ∈ (dedupSource target source gen).measureEids) →
      x ∈ (Score.mk target.basename target.partNames
        ((target.staffs.zip (dedupSource target source gen).staffs).map
          (fun p => mergeStaffPair cf ctf p.1 p.2)) target.systemLocks).measureEids := by
    intro x hx
    have hx2 : x ∈ ((target.staffs.map Staff.measureRawEids).flatten ++
        (((dedupSource target source gen).staffs.map Staff.measureRawEids).flatten)).filter
          (fun e => e != "") := by
      rw [List.filter_append]
      rcases hx with hx | hx
      · exact List.mem_append_left _ hx
      · exact List.mem_append_right _ hx
    have hx3 := List.mem_filter.mp hx2
    exact List.mem_filter.mpr ⟨(hperm.mem_iff).mpr hx3.1, hx3.2⟩
  rw [locksResolvedB_iff]
  simp only [mergeLocks_measureEids]
  intro l hl
  have hl2 := mergeLocks_locks_mem csl _ _ l hl
  rcases List.mem_append.mp hl2 with hcase | hcase
  · have hres := (locksResolvedB_iff target).mp htr l hcase
    constructor
    · intro r hr
      exact hmemM r (Or.inl (hres.1 r hr))
    · intro r hr
      exact hmemM r (Or.inl (hres.2 r hr))
  · rw [dedupSource_locks] at hcase
    obtain ⟨l0, hl0, rfl⟩ := List.mem_map.mp hcase
    have hres := (locksResolvedB_iff source).mp hsr l0 hl0
    constructor
    · intro r hr
      have hr2 : l0.startMeasure.map
          (renameEid (find_duplicate_eids target source) gen) = some r := hr
      cases hsm : l0.startMeasure with
      | none => rw [hsm] at hr2; exact absurd hr2 (by simp)
      | some r0 =>
        rw [hsm] at hr2
        have hrn : renameEid (find_duplicate_eids target source) gen r0 = r :=
          Option.some.inj hr2
        have hr0 : r0 ∈ source.measureEids := hres.1 r0 hsm
        have hin : renameEid (find_duplicate_eids target source) gen r0 ∈
            (dedupSource target source gen).measureEids := by
          rw [dedupSource_measureEids target source gen hfresh]
          exact List.mem_map_of_mem _ hr0
        rw [← hrn]
        exact hmemM _ (Or.inr hin)
    · intro r hr
      have hr2 : l0.endMeasure.map
          (renameEid (find_duplicate_eids target source) gen) = some r := hr
      cases hsm : l0.endMeasure with
      | none => rw [hsm] at hr2; exact absurd hr2 (by simp)
      | some r0 =>
        rw [hsm] at hr2
        have hrn : renameEid (find_duplicate_eids target source) gen r0 = r :=
          Option.some.inj hr2
        have hr0 : r0 ∈ source.measureEids := hres.2 r0 hsm
        have hin : renameEid (find_duplicate_eids target source) gen r0 ∈
            (dedupSource target source gen).measureEids := by
          rw [dedupSource_measureEids target source gen hfresh]
          exact List.mem_map_of_mem _ hr0
        rw [← hrn]
        exact hmemM _ (Or.inr hin)

/-- Witness for C3 (amended): aligned documents sharing eid `X`, each with a
lock over it; the source's lock is rewritten to the fresh `W` and resolves. -/
theorem C3_lock_resolution_witness :
    (Score.concatenate_score w3T w3S (fun _ => "W") true true true).target.locksResolvedB
      = true :=
  C3_lock_resolution w3T w3S (fun _ => "W") true true true
    (by decide) (by decide) (by decide) (by decide) (by decide)


/-! ## C5: the compatibility validator -/

/-- C5: the per-source classification of `validate_and_skip_files`: a source
whose cleaned (empty/absent names dropped) part-name list is empty is
incompatible with reason "no musical parts" regardless of strategy; a
non-empty cleaned list whose length differs from the target's cleaned list is
incompatible with reason "different part count"; and under the exact strategy
the two cleaned ordered lists are compared by plain list equality
(position-sensitive, duplicates preserved), any mismatch yielding the
instrumentation-mismatch classification. -/
theorem C5_validator_classification (tgtParts srcParts : List (Option String))
    (fuzzyOk : List String → List String → Bool) :
    (∀ fz, cleanParts srcParts = [] →
      validateSource (cleanParts tgtParts) srcParts fz fuzzyOk =
        ValidationResult.noMusicalParts) ∧
    (∀ fz, cleanParts srcParts ≠ [] →
      (cleanParts srcParts).length ≠ (cleanParts tgtParts).length →
      validateSource (cleanParts tgtParts) srcParts fz fuzzyOk =
        ValidationResult.differentPartCount) ∧
    (cleanParts srcParts ≠ [] →
      (cleanParts srcParts).length = (cleanParts tgtParts).length →
      ((validateSource (cleanParts tgtParts) srcParts false fuzzyOk =
          ValidationResult.valid ↔ cleanParts srcParts = cleanParts tgtParts) ∧
       (cleanParts srcParts ≠ cleanParts tgtParts →
        validateSource (cleanParts tgtParts) srcParts false fuzzyOk =
          ValidationResult.instrumentationMismatch))) := by
  refine ⟨?_, ?_, ?_⟩
  · intro fz h
    simp [validateSource, h]
  · intro fz h1 h2
    have he : ¬((cleanParts srcParts).isEmpty = true) := by simpa using h1
    simp only [validateSource]
    rw [if_neg he, if_pos h2]
  · intro h1 h2
    have he : ¬((cleanParts srcParts).isEmpty = true) := by simpa using h1
    constructor
    · constructor
      · intro hv
        simp only [validateSource] at hv
        rw [if_neg he, if_neg (by simpa using h2)] at hv
        simp only [Bool.false_eq_true, if_false] at hv
        by_cases heq : (cleanParts srcParts == cleanParts tgtParts) = true
        · exact eq_of_beq heq
        · rw [if_neg heq] at hv
          exact absurd hv (by simp)
      · intro heq
        simp only [validateSource]
        rw [if_neg he, if_neg (by simpa using h2)]
        simp only [Bool.false_eq_true, if_false]
        rw [if_pos (by simpa using heq)]
    · intro hne
      simp only [validateSource]
      rw [if_neg he, if_neg (by simpa using h2)]
      simp only [Bool.false_eq_true, if_false]
      rw [if_neg (by simpa using hne)]

/-- Witness for C5 at concrete inputs: a source with only absent/empty names
is "no musical parts" under the fuzzy strategy, and an exactly matching
source is valid under the exact strategy. -/
theorem C5_validator_classification_witness :
    validateSource (cleanParts [some "V"]) [none, some ""] true (fun _ _ => false) =
      ValidationResult.noMusicalParts ∧
    validateSource (cleanParts [some "V"]) [some "V"] false (fun _ _ => false) =
      ValidationResult.valid :=
  ⟨(C5_validator_classification [some "V"] [none, some ""] (fun _ _ => false)).1
      true (by decide),
   ((C5_validator_classification [some "V"] [some "V"] (fun _ _ => false)).2.2
      (by decide) (by decide)).1.mpr (by decide)⟩

/-! ## C7: saving a compound container -/

lemma writeEntries_length (i : Nat) (bytes : List Nat) :
    ∀ (k : Nat) (l : List ZipEntry), (writeEntries i bytes k l).length = l.length := by
  intro k l
  induction l generalizing k with
  | nil => rfl
  | cons e rest ih => simp [writeEntries, ih]

lemma writeEntries_getElem? (i : Nat) (bytes : List Nat) :
    ∀ (l : List ZipEntry) (k j : Nat),
      (writeEntries i bytes k l)[j]? =
        (l[j]?).map (fun e => if k + j = i then { e with data := bytes } else e) := by
  intro l
  induction l with
  | nil => intro k j; simp [writeEntries]
  | cons e rest ih =>
    intro k j
    cases j with
    | zero => simp [writeEntries]
    | succ j =>
      simp only [writeEntries, List.getElem?_cons_succ]
      rw [ih (k + 1) j]
      have harith : k + 1 + j = k + (j + 1) := by omega
      rw [harith]

/-- C7: for a compound document opened from a list of zip entries (the tree
entry being the first entry with the `.mscx` extension), saving with any
re-serialized tree bytes writes back a list of the same length and order in
which every entry other than the tree entry is byte-identical to what was
read, and the tree entry keeps its name (only its data is replaced). -/
theorem C7_save_preserves_entries (entries : List ZipEntry) (doc : MsczDoc)
    (bytes : List Nat) (hopen : openMscz entries = Except.ok doc) :
    (saveMscz doc bytes).length = entries.length ∧
    (∀ j : Nat, j ≠ doc.mscxIdx → (saveMscz doc bytes)[j]? = entries[j]?) ∧
    ((saveMscz doc bytes)[doc.mscxIdx]?).map ZipEntry.name =
      (entries[doc.mscxIdx]?).map ZipEntry.name := by
  have hdoc : doc.entries = entries := by
    unfold openMscz at hopen
    cases hfind : findMscxIndex entries with
    | none => rw [hfind] at hopen; exact absurd hopen (by simp)
    | some i =>
      rw [hfind] at hopen
      cases hopen
      rfl
  unfold saveMscz
  rw [hdoc]
  refine ⟨writeEntries_length _ _ _ _, ?_, ?_⟩
  · intro j hj
    rw [writeEntries_getElem?]
    have hcond : ¬(0 + j = doc.mscxIdx) := by omega
    cases hj2 : entries[j]? with
    | none => rfl
    | some e =>
      simp [hcond]
      intro h
      exact absurd h hj
  · rw [writeEntries_getElem?]
    have hcond : 0 + doc.mscxIdx = doc.mscxIdx := by omega
    cases hj2 : entries[doc.mscxIdx]? with
    | none => rfl
    | some e => simp [hcond]

/-- Witness for C7 at a concrete three-entry container whose tree entry is at
index 1. -/
theorem C7_save_preserves_entries_witness :
    (saveMscz (MsczDoc.mk c7Entries 1) [7]).length = c7Entries.length ∧
    (saveMscz (MsczDoc.mk c7Entries 1) [7])[0]? = c7Entries[0]? ∧
    (saveMscz (MsczDoc.mk c7Entries 1) [7])[2]? = c7Entries[2]? ∧
    ((saveMscz (MsczDoc.mk c7Entries 1) [7])[1]?).map ZipEntry.name =
      (c7Entries[1]?).map ZipEntry.name :=
  ⟨(C7_save_preserves_entries c7Entries (MsczDoc.mk c7Entries 1) [7] (by rfl)).1,
   (C7_save_preserves_entries c7Entries (MsczDoc.mk c7Entries 1) [7] (by rfl)).2.1 0
     (by decide),
   (C7_save_preserves_entries c7Entries (MsczDoc.mk c7Entries 1) [7] (by rfl)).2.1 2
     (by decide),
   (C7_save_preserves_entries c7Entries (MsczDoc.mk c7Entries 1) [7] (by rfl)).2.2⟩


/-! ## Event-trace shape lemmas for the concatenation run -/

lemma applyBreaks0Go_events (tp : String) (bopts : Option BreakOpts) :
    ∀ (bts : List String) (st : RunState), ∃ evs,
      (applyBreaks0Go tp bopts bts st).events = st.events ++ evs ∧
      ∀ e ∈ evs, ∃ bt o, e = Event.addBreak tp bt o := by
  intro bts
  induction bts with
  | nil => intro st; exact ⟨[], by simp [applyBreaks0Go], by simp⟩
  | cons bt rest ih =>
    intro st
    rw [applyBreaks0Go]
    by_cases hbt : bt ≠ "none"
    · rw [if_pos hbt]
      obtain ⟨evs, hev, hshape⟩ := ih _
      refine ⟨[Event.addBreak tp bt (if bt == "section" then bopts else none)] ++ evs, ?_, ?_⟩
      · rw [hev]; simp
      · intro e he
        rcases List.mem_append.mp he with h1 | h2
        · exact ⟨bt, _, by simpa using h1⟩
        · exact hshape e h2
    · rw [if_neg hbt]
      exact ih st

lemma applyBreaksLoopGo_events (tp : String) (bopts : Option BreakOpts) :
    ∀ (bts : List String) (st : RunState), ∃ evs,
      (applyBreaksLoopGo tp bopts bts st).events = st.events ++ evs ∧
      ∀ e ∈ evs, ∃ bt o, e = Event.addBreak tp bt o := by
  intro bts
  induction bts with
  | nil => intro st; exact ⟨[], by simp [applyBreaksLoopGo], by simp⟩
  | cons bt rest ih =>
    intro st
    rw [applyBreaksLoopGo]
    by_cases hbt : bt ≠ "none"
    · rw [if_pos hbt]
      obtain ⟨evs, hev, hshape⟩ := ih
        { target := st.target.add_layout_break bt (loopBreakOpts bopts bt st.target),
          events := st.events ++ [Event.addBreak tp bt (loopBreakOpts bopts bt st.target)],
          warnings := st.warnings }
      refine ⟨[Event.addBreak tp bt (loopBreakOpts bopts bt st.target)] ++ evs, ?_, ?_⟩
      · rw [hev]; simp
      · intro e he
        rcases List.mem_append.mp he with h1 | h2
        · exact ⟨bt, _, by simpa using h1⟩
        · exact hshape e h2
    · rw [if_neg hbt]
      exact ih st

lemma processOne_events (tp : String) (opts : ConcatOptions) (gen : Nat → String → String)
    (i : Nat) (st : RunState) (src : Score) : ∃ evs,
      (processOne tp opts gen i st src).events =
        st.events ++ evs ++ [Event.mergeSource src.basename] ∧
      ∀ e ∈ evs, ∃ bt o, e = Event.addBreak tp bt o := by
  unfold processOne
  by_cases hc : opts.break_type ≠ "none" ∧ 0 < i
  · rw [if_pos hc]
    obtain ⟨evs, hev, hshape⟩ := applyBreaksLoopGo_events tp opts.break_options
      (breakTypesOf opts.break_type) st
    refine ⟨evs, ?_, hshape⟩
    show (applyBreaksLoopGo tp opts.break_options (breakTypesOf opts.break_type) st).events
        ++ [Event.mergeSource src.basename] = _
    rw [hev, List.append_assoc]
  · rw [if_neg hc]
    exact ⟨[], by simp, by simp⟩

lemma processSources_events (tp : String) (opts : ConcatOptions)
    (gen : Nat → String → String) :
    ∀ (srcs : List Score) (i : Nat) (st : RunState), ∃ evs,
      (processSources tp opts gen srcs i st).events = st.events ++ evs ∧
      ∀ e ∈ evs, (∃ bt o, e = Event.addBreak tp bt o) ∨ ∃ nm, e = Event.mergeSource nm := by
  intro srcs
  induction srcs with
  | nil => intro i st; exact ⟨[], by simp [processSources], by simp⟩
  | cons src rest ih =>
    intro i st
    rw [processSources]
    obtain ⟨evs2, hev2, hshape2⟩ := ih (i + 1) (processOne tp opts gen i st src)
    obtain ⟨evs1, hev1, hshape1⟩ := processOne_events tp opts gen i st src
    refine ⟨evs1 ++ [Event.mergeSource src.basename] ++ evs2, ?_, ?_⟩
    · rw [hev2, hev1]; simp
    · intro e he
      rcases List.mem_append.mp he with h12 | h2
      · rcases List.mem_append.mp h12 with h1 | hm
        · exact Or.inl (hshape1 e h1)
        · exact Or.inr ⟨src.basename, by simpa using hm⟩
      · exact hshape2 e h2

lemma processSources_merge_mem (tp : String) (opts : ConcatOptions)
    (gen : Nat → String → String) (src : Score) (rest : List Score) (i : Nat)
    (st : RunState) :
    Event.mergeSource src.basename ∈ (processSources tp opts gen (src :: rest) i st).events := by
  rw [processSources]
  obtain ⟨evs2, hev2, _⟩ := processSources_events tp opts gen rest (i + 1)
    (processOne tp opts gen i st src)
  obtain ⟨evs1, hev1, _⟩ := processOne_events tp opts gen i st src
  rw [hev2, hev1]
  simp

/-! ## C10: staff-count mismatch handling -/

/-- C10: (a) when the staff counts differ, `concatenate_score` returns with
the target untouched (no measures, frames or system locks appended), the
deduplicated — possibly renamed — source, and the collision flag; the
renaming is not rolled back: with a non-empty collision set the returned
source is exactly the renamed source.  (b) at the run level, a two-document
run whose second document passes name validation but has a different staff
count still completes with success, an empty skipped list (the mismatched
source is absent from it), and that source was processed by the merge loop. -/
theorem C10_mismatch_handling :
    (∀ (target source : Score) (gen : String → String) (cf ctf csl : Bool),
      target.staffs.length ≠ source.staffs.length →
      (Score.concatenate_score target source gen cf ctf csl).target = target ∧
      (Score.concatenate_score target source gen cf ctf csl).source =
        dedupSource target source gen ∧
      (Score.concatenate_score target source gen cf ctf csl).hadDuplicates =
        !(find_duplicate_eids target source).isEmpty ∧
      (find_duplicate_eids target source ≠ [] →
        (Score.concatenate_score target source gen cf ctf csl).source =
          rename_duplicate_eids (find_duplicate_eids target source) gen source)) ∧
    (∀ (p0 p1 tp : String) (s0 s1 : Score) (opts : ConcatOptions)
        (gen : Nat → String → String) (fOk : List String → List String → Bool),
      ([((p0 : String), s0), (p1, s1)].all (fun d => endsWithMscz d.1)) = true →
      endsWithMscz tp = true →
      ([((p0 : String), s0), (p1, s1)].any (fun d => d.1 == tp)) = false →
      p0 ≠ p1 →
      validateSource (cleanParts s0.partNames) s1.partNames opts.fuzzy_matching fOk =
        ValidationResult.valid →
      s0.staffs.length ≠ s1.staffs.length →
      ∃ out, concatenate [(p0, s0), (p1, s1)] tp opts gen fOk = Except.ok out ∧
        out.success = true ∧ out.skipped = [] ∧
        Event.mergeSource s1.basename ∈ out.events) := by
  constructor
  · intro target source gen cf ctf csl hlen
    have hlen2 : target.staffs.length ≠ (dedupSource target source gen).staffs.length := by
      rw [dedupSource_staffs_length]; exact hlen
    have hres : Score.concatenate_score target source gen cf ctf csl =
        ⟨target, dedupSource target source gen,
          !(find_duplicate_eids target source).isEmpty⟩ := by
      unfold Score.concatenate_score
      simp [hlen2]
    refine ⟨by rw [hres], by rw [hres], by rw [hres], ?_⟩
    intro hne
    rw [hres]
    show dedupSource target source gen = _
    unfold dedupSource
    rw [if_neg (by simpa using hne)]
  · intro p0 p1 tp s0 s1 opts gen fOk hall htp hany hne hvalid _
    unfold concatenate
    rw [if_neg (by simp), if_neg (by simp [hall]), if_neg (by simp [htp]),
      if_neg (by simp [hany]), if_neg (by simp [hne])]
    have hvr : validate_and_skip_files
        { basename := pyBasename tp, partNames := s0.partNames, staffs := s0.staffs,
          systemLocks := s0.systemLocks } opts.fuzzy_matching fOk [s1] = ([s1], []) := by
      unfold validate_and_skip_files
      rw [hvalid]
      rfl
    dsimp only
    simp only [List.map_cons, List.map_nil]
    simp only [hvr]
    simp only [List.isEmpty_nil, Bool.not_true, Bool.and_false, Bool.false_eq_true,
      if_false]
    refine ⟨_, rfl, rfl, rfl, ?_⟩
    simp only []
    by_cases hbt : opts.break_type ≠ "none" ∧ 1 ≤ ([s1] : List Score).length
    · rw [if_pos hbt]
      have hmem := processSources_merge_mem tp opts gen s1 [] 0
        (applyBreaks0Go tp opts.break_options (breakTypesOf opts.break_type)
          ⟨{ basename := pyBasename tp, partNames := s0.partNames, staffs := s0.staffs,
             systemLocks := s0.systemLocks }, [Event.copyFile p0 tp], []⟩)
      exact List.mem_append_left _ (List.mem_append_left _ hmem)
    · rw [if_neg hbt]
      have hmem := processSources_merge_mem tp opts gen s1 [] 0
        ⟨{ basename := pyBasename tp, partNames := s0.partNames, staffs := s0.staffs,
           systemLocks := s0.systemLocks }, [Event.copyFile p0 tp], []⟩
      exact List.mem_append_left _ (List.mem_append_left _ hmem)

/-- Witness for C10 at concrete inputs: part (a) at a one-staff target and a
two-staff source sharing eid `X`; part (b) on the corresponding run. -/
theorem C10_mismatch_handling_witness :
    ((Score.concatenate_score c10T c10S (fun _ => "W") true true true).target = c10T ∧
      (Score.concatenate_score c10T c10S (fun _ => "W") true true true).source =
        dedupSource c10T c10S (fun _ => "W") ∧
      (Score.concatenate_score c10T c10S (fun _ => "W") true true true).hadDuplicates =
        !(find_duplicate_eids c10T c10S).isEmpty ∧
      (find_duplicate_eids c10T c10S ≠ [] →
        (Score.concatenate_score c10T c10S (fun _ => "W") true true true).source =
          rename_duplicate_eids (find_duplicate_eids c10T c10S) (fun _ => "W") c10S)) ∧
    (∃ out, concatenate [("t0.mscz", c10T), ("s0.mscz", c10S)] "out.mscz" {}
        (fun _ _ => "W") (fun _ _ => true) = Except.ok out ∧
      out.success = true ∧ out.skipped = [] ∧
      Event.mergeSource c10S.basename ∈ out.events) :=
  ⟨C10_mismatch_handling.1 c10T c10S (fun _ => "W") true true true (by decide),
   C10_mismatch_handling.2 "t0.mscz" "s0.mscz" "out.mscz" c10T c10S {}
     (fun _ _ => "W") (fun _ _ => true) (by decide) (by decide) (by decide)
     (by decide) (by decide) (by decide)⟩


/-! ## C8: writes to the output path -/

lemma map_const_replicate {α β : Type} (l : List α) (c : β) :
    l.map (fun _ => c) = List.replicate l.length c := by
  induction l with
  | nil => rfl
  | cons a rest ih => simp [List.replicate_succ, ih]

lemma filter_replicate_true {α : Type} (p : α → Bool) (c : α) (n : Nat) (h : p c = true) :
    (List.replicate n c).filter p = List.replicate n c := by
  refine List.filter_eq_self.mpr (fun a ha => ?_)
  rw [List.eq_of_mem_replicate ha]
  exact h

/-- C8 counterexample: on a concrete two-document run, the prefix of the
event trace strictly before the terminal save already contains a write to the
output target path — the initial copy of the first source file, which happens
before validation, deduplication and merging. -/
theorem C8_counterexample :
    (concatenate [("a.mscz", c8A), ("b.mscz", c8B)] "out.mscz" {} (fun _ _ => "N")
        (fun _ _ => true)).map
      (fun o => (o.events.takeWhile (fun e => e != Event.saveTarget "out.mscz")).any
        (isWriteTo "out.mscz")) = Except.ok true := rfl

/-- C8 (amended): in every successful concatenation run, the writes to the
output target path are exactly: first the verbatim copy of the first source
file (the very first event of the run, before validation and merging), then
the single terminal save, then only the optional picture appends; no other
write to the target path ever occurs, and in particular no merge state is
written between the initial copy and the terminal save. -/
theorem C8_target_writes (docs : List (String × Score)) (tp : String)
    (opts : ConcatOptions) (gen : Nat → String → String)
    (fOk : List String → List String → Bool) (out : ConcatOutcome)
    (h : concatenate docs tp opts gen fOk = Except.ok out) :
    ∃ (p₀ : String) (s₀ : Score) (rest : List (String × Score)) (n : Nat),
      docs = (p₀, s₀) :: rest ∧
      out.events.filter (isWriteTo tp) =
        Event.copyFile p₀ tp :: Event.saveTarget tp ::
          List.replicate n (Event.appendPictures tp) ∧
      out.events.head? = some (Event.copyFile p₀ tp) := by
  unfold concatenate at h
  split at h
  · simp at h
  split at h
  · simp at h
  split at h
  · simp at h
  split at h
  · simp at h
  split at h
  · simp at h
  cases docs with
  | nil => simp at h
  | cons first rest =>
    obtain ⟨p₀, s₀⟩ := first
    dsimp only at h
    split at h
    · simp at h
    have hout := Except.ok.inj h
    subst hout
    set t0 : Score := { basename := pyBasename tp, partNames := s₀.partNames,
                        staffs := s₀.staffs, systemLocks := s₀.systemLocks } with ht0
    set vs := validate_and_skip_files t0 opts.fuzzy_matching fOk (rest.map Prod.snd)
      with hvs
    set st0 : RunState := ⟨t0, [Event.copyFile p₀ tp], []⟩ with hst0
    set st1 := if opts.break_type ≠ "none" ∧ 1 ≤ vs.1.length then
        applyBreaks0Go tp opts.break_options (breakTypesOf opts.break_type) st0
      else st0 with hst1
    obtain ⟨evsP, hevP, hshapeP⟩ := processSources_events tp opts gen vs.1 0 st1
    have hst1ev : ∃ evs0, st1.events = [Event.copyFile p₀ tp] ++ evs0 ∧
        ∀ e ∈ evs0, ∃ bt o, e = Event.addBreak tp bt o := by
      rw [hst1]
      split
      · exact applyBreaks0Go_events tp opts.break_options (breakTypesOf opts.break_type) st0
      · exact ⟨[], by simp, by simp⟩
    obtain ⟨evs0, hev0, hshape0⟩ := hst1ev
    refine ⟨p₀, s₀, rest, if opts.copy_pictures then vs.1.length else 0, rfl, ?_, ?_⟩
    · show ((processSources tp opts gen vs.1 0 st1).events ++ [Event.saveTarget tp] ++
        (if opts.copy_pictures then vs.1.map (fun _ => Event.appendPictures tp)
         else [])).filter (isWriteTo tp) = _
      rw [hevP, hev0]
      rw [List.filter_append, List.filter_append, List.filter_append, List.filter_append]
      have hcopy : ([Event.copyFile p₀ tp].filter (isWriteTo tp)) = [Event.copyFile p₀ tp] := by
        simp [isWriteTo]
      have h0 : evs0.filter (isWriteTo tp) = [] := by
        refine List.filter_eq_nil_iff.mpr (fun e he => ?_)
        obtain ⟨bt, o, rfl⟩ := hshape0 e he
        simp [isWriteTo]
      have hP : evsP.filter (isWriteTo tp) = [] := by
        refine List.filter_eq_nil_iff.mpr (fun e he => ?_)
        rcases hshapeP e he with ⟨bt, o, rfl⟩ | ⟨nm, rfl⟩ <;> simp [isWriteTo]
      have hsave : ([Event.saveTarget tp].filter (isWriteTo tp)) = [Event.saveTarget tp] := by
        simp [isWriteTo]
      rw [hcopy, h0, hP, hsave]
      by_cases hp : opts.copy_pictures = true
      · rw [if_pos hp, if_pos hp, map_const_replicate,
          filter_replicate_true _ _ _ (by simp [isWriteTo])]
        simp
      · rw [if_neg hp, if_neg hp]
        simp
    · show ((processSources tp opts gen vs.1 0 st1).events ++ [Event.saveTarget tp] ++
        (if opts.copy_pictures then vs.1.map (fun _ => Event.appendPictures tp)
         else [])).head? = _
      rw [hevP, hev0]
      simp

/-- Witness for C8 (amended) at the concrete two-document run. -/
theorem C8_target_writes_witness :
    ∃ (p₀ : String) (s₀ : Score) (rest : List (String × Score)) (n : Nat),
      [("a.mscz", c8A), ("b.mscz", c8B)] = (p₀, s₀) :: rest ∧
      c8Out.events.filter (isWriteTo "out.mscz") =
        Event.copyFile p₀ "out.mscz" :: Event.saveTarget "out.mscz" ::
          List.replicate n (Event.appendPictures "out.mscz") ∧
      c8Out.events.head? = some (Event.copyFile p₀ "out.mscz") :=
  C8_target_writes [("a.mscz", c8A), ("b.mscz", c8B)] "out.mscz" {} (fun _ _ => "N")
    (fun _ _ => true) c8Out rfl


/-! ## C9: layout-break insertion between sources -/

/-- Decomposition of every successful run's event trace: the initial copy,
break events (all on the target path), merge events, the terminal save, and
the optional picture appends. -/
lemma concatenate_ok_events (docs : List (String × Score)) (tp : String)
    (opts : ConcatOptions) (gen : Nat → String → String)
    (fOk : List String → List String → Bool) (out : ConcatOutcome)
    (h : concatenate docs tp opts gen fOk = Except.ok out) :
    ∃ (p₀ : String) (s₀ : Score) (rest : List (String × Score))
      (evs0 evsP : List Event) (n : Nat),
      docs = (p₀, s₀) :: rest ∧
      out.events = [Event.copyFile p₀ tp] ++ evs0 ++ evsP ++ [Event.saveTarget tp] ++
        List.replicate n (Event.appendPictures tp) ∧
      (∀ e ∈ evs0, ∃ bt o, e = Event.addBreak tp bt o) ∧
      (∀ e ∈ evsP, (∃ bt o, e = Event.addBreak tp bt o) ∨
        ∃ nm, e = Event.mergeSource nm) := by
  unfold concatenate at h
  split at h
  · simp at h
  split at h
  · simp at h
  split at h
  · simp at h
  split at h
  · simp at h
  split at h
  · simp at h
  cases docs with
  | nil => simp at h
  | cons first rest =>
    obtain ⟨p₀, s₀⟩ := first
    dsimp only at h
    split at h
    · simp at h
    have hout := Except.ok.inj h
    subst hout
    set t0 : Score := { basename := pyBasename tp, partNames := s₀.partNames,
                        staffs := s₀.staffs, systemLocks := s₀.systemLocks } with ht0
    set vs := validate_and_skip_files t0 opts.fuzzy_matching fOk (rest.map Prod.snd)
      with hvs
    set st0 : RunState := ⟨t0, [Event.copyFile p₀ tp], []⟩ with hst0
    set st1 := if opts.break_type ≠ "none" ∧ 1 ≤ vs.1.length then
        applyBreaks0Go tp opts.break_options (breakTypesOf opts.break_type) st0
      else st0 with hst1
    obtain ⟨evsP, hevP, hshapeP⟩ := processSources_events tp opts gen vs.1 0 st1
    have hst1ev : ∃ evs0, st1.events = [Event.copyFile p₀ tp] ++ evs0 ∧
        ∀ e ∈ evs0, ∃ bt o, e = Event.addBreak tp bt o := by
      rw [hst1]
      split
      · exact applyBreaks0Go_events tp opts.break_options (breakTypesOf opts.break_type) st0
      · exact ⟨[], by simp, by simp⟩
    obtain ⟨evs0, hev0, hshape0⟩ := hst1ev
    refine ⟨p₀, s₀, rest, evs0, evsP, if opts.copy_pictures then vs.1.length else 0,
      rfl, ?_, hshape0, hshapeP⟩
    show (processSources tp opts gen vs.1 0 st1).events ++ [Event.saveTarget tp] ++
        (if opts.copy_pictures then vs.1.map (fun _ => Event.appendPictures tp)
         else []) = _
    rw [hevP, hev0]
    by_cases hp : opts.copy_pictures = true
    · simp [hp, map_const_replicate, List.append_assoc]
    · simp [hp, List.append_assoc]

/-- C9: (a) for each accepted source after the first, with a section break
configured, the loop emits — immediately before that source's merge event —
exactly one break event on the target, whose options are `loopBreakOpts`: a
local copy of the bundle with pause forced to zero when auto-detect-repeats
is on and the target's last measure carries a repeat, and the bundle itself
otherwise; the bundle is passed by value, so the shared options are never
mutated and later insertions still see the original pause.  (b) in every
successful run, every break event is applied to the target path, never to an
incoming source. -/
theorem C9_break_insertion :
    (∀ (tp : String) (opts : ConcatOptions) (gen : Nat → String → String) (i : Nat)
        (st : RunState) (src : Score) (b : BreakOpts),
      opts.break_type = "section" → opts.break_options = some b → 0 < i →
      (processOne tp opts gen i st src).events =
        st.events ++ [Event.addBreak tp "section" (loopBreakOpts (some b) "section" st.target),
          Event.mergeSource src.basename] ∧
      loopBreakOpts (some b) "section" st.target =
        some (if b.auto_detect_repeats && st.target.has_repeats_in_last_measure then
          { b with pause := 0 } else b) ∧
      ((b.auto_detect_repeats && st.target.has_repeats_in_last_measure) = true →
        loopBreakOpts (some b) "section" st.target = some { b with pause := 0 } ∧
        ({ b with pause := 0 } : BreakOpts).pause = 0 ∧
        ({ b with pause := 0 } : BreakOpts).auto_detect_repeats = b.auto_detect_repeats) ∧
      ((b.auto_detect_repeats && st.target.has_repeats_in_last_measure) = false →
        loopBreakOpts (some b) "section" st.target = some b)) ∧
    (∀ (docs : List (String × Score)) (tp : String) (opts : ConcatOptions)
        (gen : Nat → String → String) (fOk : List String → List String → Bool)
        (out : ConcatOutcome), concatenate docs tp opts gen fOk = Except.ok out →
      ∀ (who bt : String) (o : Option BreakOpts),
        Event.addBreak who bt o ∈ out.events → who = tp) := by
  constructor
  · intro tp opts gen i st src b hbt hbo hi
    have hcond : opts.break_type ≠ "none" ∧ 0 < i := ⟨by rw [hbt]; decide, hi⟩
    refine ⟨?_, ?_, ?_, ?_⟩
    · show (if opts.break_type ≠ "none" ∧ 0 < i then
          applyBreaksLoopGo tp opts.break_options (breakTypesOf opts.break_type) st
        else st).events ++ [Event.mergeSource src.basename] = _
      rw [if_pos hcond, hbt, hbo]
      have hbts : breakTypesOf "section" = ["section"] := rfl
      rw [hbts, applyBreaksLoopGo, if_pos (by decide : ("section" : String) ≠ "none"),
        applyBreaksLoopGo]
      dsimp only
      rw [List.append_assoc]
      rfl
    · by_cases hc : (b.auto_detect_repeats && st.target.has_repeats_in_last_measure) = true
      · simp [loopBreakOpts, hc]
      · simp only [Bool.not_eq_true] at hc
        simp [loopBreakOpts, hc]
    · intro hc
      refine ⟨by simp [loopBreakOpts, hc], rfl, rfl⟩
    · intro hc
      simp [loopBreakOpts, hc]
  · intro docs tp opts gen fOk out h who bt o hmem
    obtain ⟨p₀, s₀, rest, evs0, evsP, n, _, hev, hshape0, hshapeP⟩ :=
      concatenate_ok_events docs tp opts gen fOk out h
    rw [hev] at hmem
    rcases List.mem_append.mp hmem with h4 | h5
    · rcases List.mem_append.mp h4 with h3 | hsv
      · rcases List.mem_append.mp h3 with h2 | hP
        · rcases List.mem_append.mp h2 with hcp | h0
          · simp at hcp
          · obtain ⟨bt2, o2, heq⟩ := hshape0 _ h0
            injection heq with h1 h2 h3
        · rcases hshapeP _ hP with ⟨bt2, o2, heq⟩ | ⟨nm, heq⟩
          · cases heq; rfl
          · simp at heq
      · simp at hsv
    · have := List.eq_of_mem_replicate h5
      simp at this

/-- Witness for C9 at a concrete state whose target's last measure carries a
repeat, with auto-detect enabled: the break event precedes the merge event
and carries the pause-zero local copy. -/
theorem C9_break_insertion_witness :
    (processOne "out.mscz" { break_type := "section", break_options := some w9Opts }
        (fun _ _ => "W") 1 w9State w9Src).events =
      w9State.events ++ [Event.addBreak "out.mscz" "section"
        (loopBreakOpts (some w9Opts) "section" w9State.target),
        Event.mergeSource w9Src.basename] ∧
    loopBreakOpts (some w9Opts) "section" w9State.target =
      some { w9Opts with pause := 0 } :=
  ⟨(C9_break_insertion.1 "out.mscz" { break_type := "section", break_options := some w9Opts }
      (fun _ _ => "W") 1 w9State w9Src w9Opts rfl rfl (by decide)).1,
   ((C9_break_insertion.1 "out.mscz" { break_type := "section", break_options := some w9Opts }
      (fun _ _ => "W") 1 w9State w9Src w9Opts rfl rfl (by decide)).2.2.1 (by decide)).1⟩

end Mscz
